import Mathlib

/-! # migratedb: discovery and loading of migration files

A shallow embedding of `main.go`.  A Go `string` is a sequence of bytes; it is
modelled as a list of natural numbers (each byte is a number below 256).
The standard-library functions the program calls (`regexp`, `sort.Strings`,
`strconv.Atoi`, `crypto/md5`, `fmt.Sprintf("%x", ..)`) are modelled by
executable definitions; the file system is a read-only environment and the
observable actions of a call are collected in a trace.
-/

namespace Migratedb

/-- A Go string: its bytes, in order. -/
abbrev Str := List Nat

/-- The bytes (UTF-8) of a literal, to write concrete file names readably. -/
def bytesOf (s : String) : Str :=
  (s.toList.flatMap String.utf8EncodeChar).map UInt8.toNat

/-! ## String order and `sort.Strings` -/

/-- Go's `a < b` on strings: byte-wise lexicographic order, a proper prefix is smaller. -/
def strLess : Str → Str → Bool
  | [], [] => false
  | [], _ :: _ => true
  | _ :: _, [] => false
  | a :: as, b :: bs => if a < b then true else if b < a then false else strLess as bs

/-- Go's `a <= b` on strings, that is `!(b < a)`. -/
def strLe (a b : Str) : Prop := strLess b a = false

instance : DecidableRel strLe := fun a b => inferInstanceAs (Decidable (strLess b a = false))

/-- The result of `sort.Strings(files)`: the list in ascending order.  The order is total and
antisymmetric, so every correct sorting algorithm returns this same list. -/
def sortStrings (files : List Str) : List Str := List.insertionSort strLe files

/-! ## The pattern `(\d{2})__([a-zA-Z0-9_-]+).sql` -/

/-- The class `\d`: an ASCII digit. -/
def isDigit (c : Nat) : Bool := 48 ≤ c && c ≤ 57

/-- The class `[a-zA-Z0-9_-]`. -/
def isTitleByte (c : Nat) : Bool :=
  (97 ≤ c && c ≤ 122) || (65 ≤ c && c ≤ 90) || (48 ≤ c && c ≤ 57) || c == 95 || c == 45

/-- A UTF-8 continuation byte, `0x80..0xBF`. -/
def isCont (b : Nat) : Bool := 0x80 ≤ b && b ≤ 0xBF

/-- The number of bytes of the first rune of a string (`utf8.DecodeRuneInString`): a well-formed
UTF-8 sequence has its length, any other byte is a rune of width 1; 0 for the empty string. -/
def runeLen : Str → Nat
  | [] => 0
  | s0 :: rest =>
    if s0 < 0x80 then 1
    else if s0 < 0xC2 then 1
    else if s0 ≤ 0xDF then
      match rest with
      | s1 :: _ => if isCont s1 then 2 else 1
      | _ => 1
    else if s0 ≤ 0xEF then
      match rest with
      | s1 :: s2 :: _ =>
        if (if s0 = 0xE0 then 0xA0 else 0x80) ≤ s1 ∧ s1 ≤ (if s0 = 0xED then 0x9F else 0xBF)
            ∧ isCont s2 = true then 3 else 1
      | _ => 1
    else if s0 ≤ 0xF4 then
      match rest with
      | s1 :: s2 :: s3 :: _ =>
        if (if s0 = 0xF0 then 0x90 else 0x80) ≤ s1 ∧ s1 ≤ (if s0 = 0xF4 then 0x8F else 0xBF)
            ∧ isCont s2 = true ∧ isCont s3 = true then 4 else 1
      | _ => 1
    else 1

/-- The bytes of `sql`. -/
def sqlBytes : Str := [115, 113, 108]

/-- The tail `.sql` of the pattern at the head of `s`: one rune other than newline (the dot is
not escaped, so it stands for any character), then `sql`.  Returns the bytes matched. -/
def dotSql (s : Str) : Option Str :=
  match s with
  | [] => none
  | c :: _ =>
    if c = 10 then none
    else if (s.drop (runeLen s)).take 3 = sqlBytes then some (s.take (runeLen s + 3))
    else none

/-- The part `[a-zA-Z0-9_-]*.sql` after the first title byte, greedy with backtracking: take one
more title byte when the rest can still match, otherwise match `.sql` here.  Returns the title
bytes taken and the bytes matched by `.sql`. -/
def titleRest : Str → Option (Str × Str)
  | [] => none
  | c :: rest =>
    if isTitleByte c then
      match titleRest rest with
      | some (t, e) => some (c :: t, e)
      | none => (dotSql (c :: rest)).map fun e => ([], e)
    else (dotSql (c :: rest)).map fun e => ([], e)

/-- A match of the whole pattern starting at the first byte of `s`: the matched text and the two
capture groups. -/
def matchAt : Str → Option (List Str)
  | d1 :: d2 :: u1 :: u2 :: c :: rest =>
    if isDigit d1 && isDigit d2 && u1 == 95 && u2 == 95 && isTitleByte c then
      (titleRest rest).map fun te => [d1 :: d2 :: 95 :: 95 :: c :: (te.1 ++ te.2), [d1, d2], c :: te.1]
    else none
  | _ => none

/-- The search of `regexp`: the pattern has no anchors, so the leftmost start position with a
match is taken.  (A match starts at an ASCII digit, which is always the first byte of a rune.) -/
def doExecute : Str → Option (List Str)
  | [] => none
  | c :: rest =>
    match matchAt (c :: rest) with
    | some m => some m
    | none => doExecute rest

/-- Translation of `regexFilename.MatchString(s)`. -/
def MatchString (s : Str) : Bool := (doExecute s).isSome

/-- Translation of `regexFilename.FindStringSubmatch(s)`: `nil` when nothing matches, else the match and
its two groups. -/
def FindStringSubmatch (s : Str) : List Str :=
  match doExecute s with
  | some m => m
  | none => []

/-! ## `strconv.Atoi` -/

/-- The errors of the program: an error value of the operating system (from `ioutil.ReadDir`,
`os.Open` or `ioutil.ReadAll`), the error built by
`fmt.Errorf("expected three parts from regex, got %d (%s)", len(parts), parts)`, the
`*strconv.NumError` of `strconv.Atoi` (its kind, invalid or out of range, is not recorded), and
an error value of `sql.Open`. -/
inductive GoError where
  | os (errno : Nat)
  | threeParts (n : Nat) (parts : List Str)
  | numError (num : Str)
  | sql (code : Nat)
deriving DecidableEq, Repr

/-- The loop `n = n*10 + int(ch - 48)` over the bytes of a number, `none` at a byte that is not
a digit. -/
def digitsValue : Nat → Str → Option Nat
  | n, [] => some n
  | n, ch :: rest => if 48 ≤ ch ∧ ch ≤ 57 then digitsValue (n * 10 + (ch - 48)) rest else none

/-- Translation of `strconv.Atoi` for a 64-bit `int`: an optional sign, then one or more decimal digits, the
value within `-2^63 .. 2^63-1`; anything else is an error. -/
def Atoi (s : Str) : Except GoError Int :=
  match s with
  | [] => .error (.numError s)
  | c :: rest =>
    let body := if c = 45 ∨ c = 43 then rest else s
    if body = [] then .error (.numError s)
    else
      match digitsValue 0 body with
      | none => .error (.numError s)
      | some n =>
        let v : Int := if c = 45 then -(n : Int) else (n : Int)
        if v < -(2 ^ 63 : Int) ∨ (2 ^ 63 : Int) ≤ v then .error (.numError s) else .ok v

/-! ## `crypto/md5` and `%x` -/

/-- Per-round left-rotation amounts of MD5. -/
def md5Shift : List Nat :=
  [7, 12, 17, 22, 7, 12, 17, 22, 7, 12, 17, 22, 7, 12, 17, 22,
   5, 9, 14, 20, 5, 9, 14, 20, 5, 9, 14, 20, 5, 9, 14, 20,
   4, 11, 16, 23, 4, 11, 16, 23, 4, 11, 16, 23, 4, 11, 16, 23,
   6, 10, 15, 21, 6, 10, 15, 21, 6, 10, 15, 21, 6, 10, 15, 21]

/-- The additive constants of MD5, `floor (2^32 * |sin (i + 1)|)`. -/
def md5Sine : List Nat :=
  [0xd76aa478, 0xe8c7b756, 0x242070db, 0xc1bdceee, 0xf57c0faf, 0x4787c62a, 0xa8304613, 0xfd469501,
   0x698098d8, 0x8b44f7af, 0xffff5bb1, 0x895cd7be, 0x6b901122, 0xfd987193, 0xa679438e, 0x49b40821,
   0xf61e2562, 0xc040b340, 0x265e5a51, 0xe9b6c7aa, 0xd62f105d, 0x02441453, 0xd8a1e681, 0xe7d3fbc8,
   0x21e1cde6, 0xc33707d6, 0xf4d50d87, 0x455a14ed, 0xa9e3e905, 0xfcefa3f8, 0x676f02d9, 0x8d2a4c8a,
   0xfffa3942, 0x8771f681, 0x6d9d6122, 0xfde5380c, 0xa4beea44, 0x4bdecfa9, 0xf6bb4b60, 0xbebfbc70,
   0x289b7ec6, 0xeaa127fa, 0xd4ef3085, 0x04881d05, 0xd9d4d039, 0xe6db99e5, 0x1fa27cf8, 0xc4ac5665,
   0xf4292244, 0x432aff97, 0xab9423a7, 0xfc93a039, 0x655b59c3, 0x8f0ccc92, 0xffeff47d, 0x85845dd1,
   0x6fa87e4f, 0xfe2ce6e0, 0xa3014314, 0x4e0811a1, 0xf7537e82, 0xbd3af235, 0x2ad7d2bb, 0xeb86d391]

/-- Rotate a 32-bit word left by `c` bits. -/
def rotl32 (x c : Nat) : Nat := ((x <<< c) ||| (x >>> (32 - c))) % 2 ^ 32

/-- The four 32-bit words of the MD5 state. -/
structure Md5State where
  a : Nat
  b : Nat
  c : Nat
  d : Nat
deriving DecidableEq, Repr

/-- One of the 64 operations of MD5 on the block with words `m`. -/
def md5Step (m : List Nat) (st : Md5State) (i : Nat) : Md5State :=
  let nb := st.b ^^^ 0xffffffff
  let nd := st.d ^^^ 0xffffffff
  let f :=
    if i < 16 then (st.b &&& st.c) ||| (nb &&& st.d)
    else if i < 32 then (st.d &&& st.b) ||| (nd &&& st.c)
    else if i < 48 then st.b ^^^ st.c ^^^ st.d
    else st.c ^^^ (st.b ||| nd)
  let g :=
    if i < 16 then i
    else if i < 32 then (5 * i + 1) % 16
    else if i < 48 then (3 * i + 5) % 16
    else (7 * i) % 16
  let x := (st.a + f + md5Sine.getD i 0 + m.getD g 0) % 2 ^ 32
  { a := st.d, b := (st.b + rotl32 x (md5Shift.getD i 0)) % 2 ^ 32, c := st.b, d := st.c }

/-- The 16 little-endian 32-bit words of a 64-byte block. -/
def md5Words : Nat → Str → List Nat
  | 0, _ => []
  | n + 1, bs =>
    (bs.getD 0 0 + 256 * bs.getD 1 0 + 65536 * bs.getD 2 0 + 16777216 * bs.getD 3 0)
      :: md5Words n (bs.drop 4)

/-- Process one 64-byte block. -/
def md5Block (st : Md5State) (block : Str) : Md5State :=
  let r := (List.range 64).foldl (md5Step (md5Words 16 block)) st
  { a := (st.a + r.a) % 2 ^ 32, b := (st.b + r.b) % 2 ^ 32,
    c := (st.c + r.c) % 2 ^ 32, d := (st.d + r.d) % 2 ^ 32 }

/-- Process `n` consecutive 64-byte blocks. -/
def md5Blocks : Nat → Md5State → Str → Md5State
  | 0, st, _ => st
  | n + 1, st, bs => md5Blocks n (md5Block st (bs.take 64)) (bs.drop 64)

/-- The `n` low bytes of `x`, least significant first. -/
def leBytes : Nat → Nat → Str
  | 0, _ => []
  | n + 1, x => (x % 256) :: leBytes n (x / 256)

/-- MD5 padding: the byte `0x80`, zeros up to 56 modulo 64, then the bit length in 8 bytes. -/
def md5Pad (msg : Str) : Str :=
  msg ++ [0x80] ++ List.replicate ((119 - msg.length % 64) % 64) 0
    ++ leBytes 8 ((8 * msg.length) % 2 ^ 64)

/-- Translation of `md5.Sum(b)`: the 16 bytes of the MD5 digest of `b`. -/
def md5Sum (b : Str) : List Nat :=
  let p := md5Pad b
  let r := md5Blocks (p.length / 64) ⟨0x67452301, 0xefcdab89, 0x98badcfe, 0x10325476⟩ p
  leBytes 4 r.a ++ leBytes 4 r.b ++ leBytes 4 r.c ++ leBytes 4 r.d

/-- The lowercase hexadecimal digit of a value below 16. -/
def hexDigit (n : Nat) : Nat := if n < 10 then 48 + n else 87 + n

/-- Translation of `fmt.Sprintf("%x", digest)` on a byte array: two lowercase hexadecimal digits per byte,
high digit first. -/
def hexEncode (bs : List Nat) : Str := bs.flatMap fun b => [hexDigit (b / 16), hexDigit (b % 16)]

/-! ## The program -/

/-- The record `migration`. -/
structure migration where
  ID : Int
  Title : Str
  MD5Sum : Str
  content : Str
deriving DecidableEq, Repr

/-- A directory entry (`os.FileInfo`): what the program reads of it. -/
structure FileInfo where
  Name : Str
  IsDir : Bool
deriving DecidableEq, Repr

/-- The file system as the program sees it.  `ReadDir dir` is the result of `ioutil.ReadDir(dir)`;
`Open dir file` is the result of `os.Open(filepath.Join(dir, file))`, and when the file opens it
holds the result that `ioutil.ReadAll` gives on it. -/
structure Env where
  ReadDir : Str → Except Nat (List FileInfo)
  Open : Str → Str → Except Nat (Except Nat Str)

/-- The observable actions of a run, in the order they happen: on the file system and the log
(`readDir`, `logPrintf`, `openFile`, `readAll`, `closeFile`), of `main` (`printDefaults` for
`flag.PrintDefaults()`, `sqlOpen` for `sql.Open("sqlite3", conn)`, `dbClose` for the deferred
`db.Close()`, `logFatal` for the message of `log.Fatal`, `exit` for the end of the process by
`os.Exit`), and `dbExec` for a statement sent to the database (`Exec` or `Query` on `db`). -/
inductive Effect where
  | readDir (dir : Str)
  | logPrintf (found skipped : Nat)
  | openFile (dir file : Str)
  | readAll (dir file : Str)
  | closeFile (dir file : Str)
  | printDefaults
  | sqlOpen (conn : Str)
  | dbClose
  | logFatal (e : GoError)
  | exit (code : Nat)
  | dbExec (stmt : Str)
deriving DecidableEq, Repr

/-- The body of the loop of `getMigrationFiles` on one entry, on the pair `(files, skipped)`. -/
def scanEntry (acc : List Str × Nat) (fi : FileInfo) : List Str × Nat :=
  if fi.IsDir || !MatchString fi.Name then (acc.1, acc.2 + 1)
  else (acc.1 ++ [fi.Name], acc.2)

/-- Translation of `getMigrationFiles`: the returned pair `(files, err)` and the actions performed (the
directory read and, on success, the log line with `len(files)` and `skipped`). -/
def getMigrationFiles (env : Env) (dir : Str) : Except GoError (List Str) × List Effect :=
  match env.ReadDir dir with
  | .error e => (.error (.os e), [.readDir dir])
  | .ok fis =>
    let acc := fis.foldl scanEntry ([], 0)
    let files := sortStrings acc.1
    (.ok files, [.readDir dir, .logPrintf files.length acc.2])

/-- Translation of `initMigration`: the returned pair `(migration, err)` and the actions performed. -/
def initMigration (env : Env) (dir file : Str) : Except GoError migration × List Effect :=
  let parts := FindStringSubmatch file
  if parts.length ≠ 3 then (.error (.threeParts parts.length parts), [])
  else
    match Atoi (parts.getD 1 []) with
    | .error e => (.error e, [])
    | .ok id =>
      match env.Open dir file with
      | .error e => (.error (.os e), [.openFile dir file])
      | .ok f =>
        match f with
        | .error e =>
          (.error (.os e), [.openFile dir file, .readAll dir file, .closeFile dir file])
        | .ok b =>
          (.ok { ID := id, Title := parts.getD 2 [], MD5Sum := hexEncode (md5Sum b), content := b },
            [.openFile dir file, .readAll dir file, .closeFile dir file])

/-- The loop of `start` over the discovered files: the slice `migrations` when every load
succeeds, else the first error; later files are not loaded. -/
def loadAll (env : Env) (dir : Str) : List Str → Except GoError (List migration) × List Effect
  | [] => (.ok [], [])
  | file :: rest =>
    match initMigration env dir file with
    | (.error e, tr) => (.error e, tr)
    | (.ok m, tr) =>
      match loadAll env dir rest with
      | (.error e, tr2) => (.error e, tr ++ tr2)
      | (.ok ms, tr2) => (.ok (m :: ms), tr ++ tr2)

/-- The body of `start` up to its `return nil`: the slice `migrations` it has built. -/
def startMigrations (env : Env) (dir : Str) : Except GoError (List migration) × List Effect :=
  match getMigrationFiles env dir with
  | (.error e, tr) => (.error e, tr)
  | (.ok files, tr) =>
    match loadAll env dir files with
    | (r, tr2) => (r, tr ++ tr2)

/-- The state of the database behind the handle `db`: the statements executed on it. -/
structure DB where
  executed : List Str
deriving DecidableEq, Repr

/-- Translation of `start`: the returned error (`none` for `nil`), the database afterwards and the actions
performed.  The handle `db` is not used by the body. -/
def start (env : Env) (db : DB) (dir : Str) : Option GoError × DB × List Effect :=
  match startMigrations env dir with
  | (.error e, tr) => (some e, db, tr)
  | (.ok _, tr) => (none, db, tr)

/-- The constant `createTable`: the statement that would create the table `migrations`. -/
def createTable : Str :=
  bytesOf ("\nCREATE TABLE \"migrations\" (\n"
    ++ "  \"id\"      INTEGER NOT NULL PRIMARY KEY UNIQUE,\n"
    ++ "  \"title\"   TEXT NOT NULL UNIQUE,\n"
    ++ "  \"md5_sum\" TEXT NOT NULL UNIQUE\n)")

/-- Translation of `main`, from the values `conn` and `dir` that `flag.Parse()` has stored for the flags
`--conn` and `--dir`: the exit status of the process and the actions performed.  `sqlOpen conn`
is the result of `sql.Open("sqlite3", conn)`.  `log.Fatal` ends the process with status 1 by
`os.Exit`, so the deferred `db.Close()` runs only when `main` returns. -/
def main (env : Env) (sqlOpen : Str → Except Nat DB) (conn dir : Str) : Nat × List Effect :=
  if conn = [] ∨ dir = [] then (1, [.printDefaults, .exit 1])
  else
    match sqlOpen conn with
    | .error e => (1, [.sqlOpen conn, .logFatal (.sql e), .exit 1])
    | .ok db =>
      match start env db dir with
      | (some e, _, tr) => (1, [.sqlOpen conn] ++ tr ++ [.logFatal e, .exit 1])
      | (none, _, tr) => (0, [.sqlOpen conn] ++ tr ++ [.dbClose])

/-! ## The grammar of the specification and sample directories -/

/-- The filename grammar in the words of the specification, anchored to the whole name: exactly
two ASCII digits, then `__`, then one or more bytes of `[A-Za-z0-9_-]`, then the literal `.sql`,
with nothing before or after. -/
def specGrammar (name : Str) : Bool :=
  match name with
  | d1 :: d2 :: 95 :: 95 :: rest =>
    isDigit d1 && isDigit d2 && decide (4 < rest.length)
      && (rest.take (rest.length - 4)).all isTitleByte
      && rest.drop (rest.length - 4) == [46, 115, 113, 108]
  | _ => false

/-- The content given to every file of the sample directories. -/
def sampleContent : Str := bytesOf "CREATE TABLE t(x);"

/-- A file system whose directories all hold the entries `fis` and whose files all open and
read as `sampleContent`. -/
def envOf (fis : List FileInfo) : Env where
  ReadDir := fun _ => .ok fis
  Open := fun _ _ => .ok (.ok sampleContent)

/-- Two migrations listed in reverse order, a text file, and a directory whose name looks like a
migration. -/
def sampleListing : List FileInfo :=
  [⟨bytesOf "02__second.sql", false⟩, ⟨bytesOf "01__first.sql", false⟩,
   ⟨bytesOf "readme.txt", false⟩, ⟨bytesOf "03__looks_like_a_migration.sql", true⟩]

/-- The entries of `sampleListing` in another order. -/
def sampleListingPermuted : List FileInfo :=
  [⟨bytesOf "03__looks_like_a_migration.sql", true⟩, ⟨bytesOf "01__first.sql", false⟩,
   ⟨bytesOf "readme.txt", false⟩, ⟨bytesOf "02__second.sql", false⟩]

/-- A backup copy next to a migration: its name only contains the pattern. -/
def backupListing : List FileInfo :=
  [⟨bytesOf "01__a.sql", false⟩, ⟨bytesOf "01__a.sql.bak", false⟩]

/-- Two files whose names contain the pattern at different offsets. -/
def offsetListing : List FileInfo :=
  [⟨bytesOf "x01__a.sql", false⟩, ⟨bytesOf "02__a.sql", false⟩]

/-- Three well-named migrations that repeat a number and a title. -/
def repeatListing : List FileInfo :=
  [⟨bytesOf "01__a.sql", false⟩, ⟨bytesOf "01__b.sql", false⟩, ⟨bytesOf "02__b.sql", false⟩]

/-- A file whose name has the letter `X` where the extension should have its dot. -/
def dotListing : List FileInfo :=
  [⟨bytesOf "01__aXsql", false⟩]

/-- Three migrations. -/
def threeListing : List FileInfo :=
  [⟨bytesOf "03__c.sql", false⟩, ⟨bytesOf "01__a.sql", false⟩, ⟨bytesOf "02__b.sql", false⟩]

/-- A file system whose directories all hold `threeListing`, where `02__b.sql` cannot be opened
(error 13) and `03__c.sql` opens but cannot be read (error 5). -/
def failingEnv : Env where
  ReadDir := fun _ => .ok threeListing
  Open := fun _ file =>
    if file = bytesOf "02__b.sql" then .error 13
    else if file = bytesOf "03__c.sql" then .ok (.error 5)
    else .ok (.ok sampleContent)

/-- A file system whose directories cannot be listed (error 2). -/
def unreadableEnv : Env where
  ReadDir := fun _ => .error 2
  Open := fun _ _ => .error 2

/-- The result of `sql.Open` in the samples: a handle on a database on which nothing has been
executed. -/
def sampleSqlOpen : Str → Except Nat DB := fun _ => .ok ⟨[]⟩

/-! ## The string order is a total order -/

theorem strLess_irrefl (a : Str) : strLess a a = false := by
  induction a with
  | nil => rfl
  | cons x xs ih => simp [strLess, ih]

theorem strLess_asymm : ∀ a b : Str, strLess a b = true → strLess b a = false
  | [], [] => by simp [strLess]
  | [], _ :: _ => by simp [strLess]
  | _ :: _, [] => by simp [strLess]
  | a :: as, b :: bs => by
    intro h
    simp only [strLess] at h ⊢
    by_cases h1 : a < b
    · have h2 : ¬ b < a := by omega
      simp [h2, h1]
    · by_cases h2 : b < a
      · simp [h1, h2] at h
      · simp only [h1, h2, if_false] at h ⊢
        exact strLess_asymm as bs h

theorem strLe_total (a b : Str) : strLe a b ∨ strLe b a := by
  unfold strLe
  cases h : strLess b a
  · exact Or.inl rfl
  · exact Or.inr (strLess_asymm b a h)

theorem strLe_antisymm : ∀ a b : Str, strLe a b → strLe b a → a = b
  | [], [] => by simp
  | [], _ :: _ => by simp [strLe, strLess]
  | _ :: _, [] => by simp [strLe, strLess]
  | a :: as, b :: bs => by
    intro h1 h2
    simp only [strLe, strLess] at h1 h2
    by_cases hab : a < b
    · simp [hab] at h2
    · by_cases hba : b < a
      · simp [hba] at h1
      · simp only [hab, hba, if_false] at h1 h2
        have e : a = b := by omega
        rw [e, strLe_antisymm as bs h1 h2]

theorem strLe_trans : ∀ a b c : Str, strLe a b → strLe b c → strLe a c
  | [], _, _ => by
    intro _ _
    unfold strLe
    cases ‹Str› <;> simp [strLess]
  | _ :: _, [], _ => by simp [strLe, strLess]
  | _ :: _, _ :: _, [] => by simp [strLe, strLess]
  | a :: as, b :: bs, c :: cs => by
    intro h1 h2
    simp only [strLe, strLess] at h1 h2 ⊢
    by_cases hba : b < a
    · simp [hba] at h1
    by_cases hcb : c < b
    · simp [hcb] at h2
    by_cases hab : a < b
    · have : ¬ c < a := by omega
      have : a < c := by omega
      simp [*]
    by_cases hbc : b < c
    · have : ¬ c < a := by omega
      have : a < c := by omega
      simp [*]
    simp only [hba, hcb, hab, hbc, if_false] at h1 h2
    have e1 : a = b := by omega
    have e2 : b = c := by omega
    subst e1 e2
    simp only [hab, if_false]
    exact strLe_trans as bs cs h1 h2

theorem sortStrings_sorted (l : List Str) : List.Sorted strLe (sortStrings l) :=
  @List.sorted_insertionSort _ strLe _ ⟨strLe_total⟩ ⟨strLe_trans⟩ l

theorem sortStrings_perm (l : List Str) : (sortStrings l).Perm l :=
  List.perm_insertionSort strLe l

/-- Any ascending arrangement of the same strings is the list that `sortStrings` returns, whatever the
sorting algorithm. -/
theorem sortStrings_unique (l s : List Str) (hp : s.Perm l) (hs : List.Sorted strLe s) :
    s = sortStrings l :=
  @List.eq_of_perm_of_sorted _ strLe ⟨strLe_antisymm⟩ _ _
    (hp.trans (sortStrings_perm l).symm) hs (sortStrings_sorted l)

theorem sortStrings_congr (l₁ l₂ : List Str) (hp : l₁.Perm l₂) : sortStrings l₁ = sortStrings l₂ :=
  sortStrings_unique l₂ (sortStrings l₁) ((sortStrings_perm l₁).trans hp) (sortStrings_sorted l₁)

/-! ## The scan loop of `getMigrationFiles` -/

/-- The entries the loop keeps: not a directory, and the pattern matches the name. -/
theorem scan_foldl (fis : List FileInfo) (acc : List Str × Nat) :
    fis.foldl scanEntry acc =
      (acc.1 ++ (fis.filter fun fi => !fi.IsDir && MatchString fi.Name).map FileInfo.Name,
        acc.2 + (fis.filter fun fi => fi.IsDir || !MatchString fi.Name).length) := by
  induction fis generalizing acc with
  | nil => simp
  | cons fi rest ih =>
    rw [List.foldl_cons, ih]
    unfold scanEntry
    by_cases hd : fi.IsDir = true
    · simp [hd]; omega
    · by_cases hm : MatchString fi.Name = true
      · simp [hd, hm]
      · simp [hd, hm]; omega

theorem filter_length_split (fis : List FileInfo) :
    (fis.filter fun fi => !fi.IsDir && MatchString fi.Name).length
      + (fis.filter fun fi => fi.IsDir || !MatchString fi.Name).length = fis.length := by
  induction fis with
  | nil => rfl
  | cons fi rest ih =>
    by_cases hd : fi.IsDir = true
    · simp [hd] at ih ⊢; omega
    · by_cases hm : MatchString fi.Name = true
      · simp [hd, hm] at ih ⊢; omega
      · simp [hd, hm] at ih ⊢; omega

theorem getMigrationFiles_ok (env : Env) (dir : Str) (fis : List FileInfo)
    (h : env.ReadDir dir = .ok fis) :
    getMigrationFiles env dir =
      (.ok (sortStrings ((fis.filter fun fi => !fi.IsDir && MatchString fi.Name).map FileInfo.Name)),
        [.readDir dir,
          .logPrintf (sortStrings
              ((fis.filter fun fi => !fi.IsDir && MatchString fi.Name).map FileInfo.Name)).length
            (fis.filter fun fi => fi.IsDir || !MatchString fi.Name).length]) := by
  unfold getMigrationFiles
  rw [h]
  simp [scan_foldl]

theorem getMigrationFiles_ok_inv (env : Env) (dir : Str) (files : List Str)
    (h : (getMigrationFiles env dir).1 = .ok files) :
    ∃ fis, env.ReadDir dir = .ok fis := by
  unfold getMigrationFiles at h
  cases hr : env.ReadDir dir with
  | error e => rw [hr] at h; simp at h
  | ok fis => exact ⟨fis, rfl⟩

/-! ## What a match of the pattern looks like -/

theorem runeLen_pos (c : Nat) (rest : Str) : 1 ≤ runeLen (c :: rest) := by
  simp only [runeLen]
  repeat' split
  all_goals omega

theorem runeLen_le_length (s : Str) : runeLen s ≤ s.length := by
  cases s with
  | nil => simp [runeLen]
  | cons c rest =>
    simp only [runeLen]
    repeat' split
    all_goals simp

theorem runeLen_le_four (s : Str) : runeLen s ≤ 4 := by
  cases s with
  | nil => simp [runeLen]
  | cons c rest =>
    simp only [runeLen]
    repeat' split
    all_goals omega

theorem runeLen_ascii (c : Nat) (rest : Str) (h : c < 128) : runeLen (c :: rest) = 1 := by
  simp [runeLen, h]

theorem dotSql_spec (s e : Str) (h : dotSql s = some e) :
    ∃ c r post, s = e ++ post ∧ e = (c :: r) ++ sqlBytes ∧ c ≠ 10 ∧ r.length + 1 = runeLen s := by
  cases s with
  | nil => simp [dotSql] at h
  | cons c rest =>
    simp only [dotSql] at h
    split_ifs at h with h1 h2
    simp only [Option.some.injEq] at h
    have hw := runeLen_pos c rest
    have hl := runeLen_le_length (c :: rest)
    generalize runeLen (c :: rest) = w at *
    obtain ⟨k, rfl⟩ : ∃ k, w = k + 1 := ⟨w - 1, by omega⟩
    refine ⟨c, rest.take k, (c :: rest).drop (k + 1 + 3), ?_, ?_, h1, ?_⟩
    · rw [← h, List.take_append_drop]
    · rw [← h, ← h2]
      simp only [List.drop_succ_cons, List.take_succ_cons, List.cons_append, List.cons.injEq, true_and]
      rw [List.take_add]
    · simp at hl
      simp; omega


theorem titleRest_spec (s t e : Str) (h : titleRest s = some (t, e)) :
    (∀ x ∈ t, isTitleByte x = true) ∧ ∃ post, s = t ++ e ++ post ∧ dotSql (e ++ post) = some e := by
  induction s generalizing t e with
  | nil => simp [titleRest] at h
  | cons c rest ih =>
    have hdot : ∀ e, dotSql (c :: rest) = some e →
        ∃ post, c :: rest = [] ++ e ++ post ∧ dotSql (e ++ post) = some e := by
      intro e he
      obtain ⟨_, _, post, hs, _⟩ := dotSql_spec _ _ he
      exact ⟨post, by simpa using hs, by rw [← hs]; exact he⟩
    simp only [titleRest] at h
    split_ifs at h with hc
    · cases hr : titleRest rest with
      | some te =>
        obtain ⟨t1, e1⟩ := te
        rw [hr] at h
        simp only [Option.some.injEq, Prod.mk.injEq] at h
        obtain ⟨rfl, rfl⟩ := h
        obtain ⟨h1, post, h2, h3⟩ := ih t1 e1 hr
        refine ⟨?_, post, by simp [h2], h3⟩
        intro x hx
        rcases List.mem_cons.1 hx with rfl | hx
        · exact hc
        · exact h1 x hx
      | none =>
        rw [hr] at h
        simp only [Option.map_eq_some'] at h
        obtain ⟨e1, he1, heq⟩ := h
        simp only [Prod.mk.injEq] at heq
        obtain ⟨rfl, rfl⟩ := heq
        exact ⟨by simp, hdot _ he1⟩
    · simp only [Option.map_eq_some'] at h
      obtain ⟨e1, he1, heq⟩ := h
      simp only [Prod.mk.injEq] at heq
      obtain ⟨rfl, rfl⟩ := heq
      exact ⟨by simp, hdot _ he1⟩

theorem matchAt_spec (s : Str) (m : List Str) (h : matchAt s = some m) :
    ∃ d1 d2 c t e post, s = d1 :: d2 :: 95 :: 95 :: c :: (t ++ e ++ post)
      ∧ m = [d1 :: d2 :: 95 :: 95 :: c :: (t ++ e), [d1, d2], c :: t]
      ∧ isDigit d1 = true ∧ isDigit d2 = true ∧ isTitleByte c = true
      ∧ (∀ x ∈ t, isTitleByte x = true) ∧ dotSql (e ++ post) = some e := by
  match s, h with
  | d1 :: d2 :: u1 :: u2 :: c :: rest, h =>
    simp only [matchAt] at h
    split_ifs at h with hc
    simp only [Bool.and_eq_true, beq_iff_eq] at hc
    obtain ⟨⟨⟨⟨hd1, hd2⟩, rfl⟩, rfl⟩, hcc⟩ := hc
    simp only [Option.map_eq_some'] at h
    obtain ⟨⟨t, e⟩, hte, rfl⟩ := h
    obtain ⟨ht, post, hs, hdot⟩ := titleRest_spec _ _ _ hte
    exact ⟨d1, d2, c, t, e, post, by rw [hs], rfl, hd1, hd2, hcc, ht, hdot⟩

theorem doExecute_spec (s : Str) (m : List Str) (h : doExecute s = some m) :
    ∃ pre rest, s = pre ++ rest ∧ matchAt rest = some m
      ∧ ∀ p q, pre = p ++ q → q ≠ [] → matchAt (q ++ rest) = none := by
  induction s with
  | nil => simp [doExecute] at h
  | cons c rest ih =>
    simp only [doExecute] at h
    cases hm : matchAt (c :: rest) with
    | some m1 =>
      rw [hm] at h
      simp only [Option.some.injEq] at h
      subst h
      refine ⟨[], c :: rest, rfl, hm, ?_⟩
      intro p q hpq hq
      have := List.append_eq_nil.1 hpq.symm
      exact absurd this.2 hq
    | none =>
      rw [hm] at h
      obtain ⟨pre, r, hs, hmatch, hleft⟩ := ih h
      refine ⟨c :: pre, r, by rw [hs]; rfl, hmatch, ?_⟩
      intro p q hpq hq
      cases p with
      | nil =>
        simp only [List.nil_append] at hpq
        subst hpq
        rw [List.cons_append, ← hs]
        exact hm
      | cons x p1 =>
        simp only [List.cons_append, List.cons.injEq] at hpq
        exact hleft p1 q hpq.2 hq

theorem titleRest_full (t : Str) (ht : ∀ x ∈ t, isTitleByte x = true) :
    titleRest (t ++ 46 :: sqlBytes) = some (t, 46 :: sqlBytes) := by
  induction t with
  | nil => simp [titleRest, isTitleByte, dotSql, runeLen, sqlBytes]
  | cons c rest ih =>
    have hc : isTitleByte c = true := ht c (List.mem_cons_self _ _)
    have hr := ih fun x hx => ht x (List.mem_cons_of_mem _ hx)
    rw [List.cons_append, titleRest, if_pos hc, hr]

/-- On a name of the form `d1 d2 __ title .sql` the search matches at the first byte and the
greedy title group takes the whole title. -/
theorem doExecute_wellformed (d1 d2 c : Nat) (t : Str) (h1 : isDigit d1 = true)
    (h2 : isDigit d2 = true) (hc : isTitleByte c = true) (ht : ∀ x ∈ t, isTitleByte x = true) :
    doExecute (d1 :: d2 :: 95 :: 95 :: c :: (t ++ 46 :: sqlBytes))
      = some [d1 :: d2 :: 95 :: 95 :: c :: (t ++ 46 :: sqlBytes), [d1, d2], c :: t] := by
  simp [doExecute, matchAt, h1, h2, hc, titleRest_full t ht]

theorem Atoi_two_digits (d1 d2 : Nat) (h1 : isDigit d1 = true) (h2 : isDigit d2 = true) :
    Atoi [d1, d2] = .ok ((10 * (d1 - 48) + (d2 - 48) : Nat) : Int) := by
  simp only [isDigit, Bool.and_eq_true, decide_eq_true_eq] at h1 h2
  have n45 : d1 ≠ 45 := by omega
  have n43 : d1 ≠ 43 := by omega
  have hv : ¬ ((((0 * 10 + (d1 - 48)) * 10 + (d2 - 48) : Nat) : Int) < -(2 ^ 63 : Int)
      ∨ (2 ^ 63 : Int) ≤ (((0 * 10 + (d1 - 48)) * 10 + (d2 - 48) : Nat) : Int)) := by
    omega
  simp only [Atoi, n45, n43, or_self, if_false, digitsValue, h1, h2, and_self, if_true]
  rw [if_neg (by simp), if_neg hv]
  congr 1
  omega

/-! ## Discovery: order, partition, independence of the listing order -/

/-- C1: whenever `getMigrationFiles` succeeds, the returned filenames are in ascending byte-wise
lexicographic order: every element is `<=` the element after it (and so every element is `<=`
every later one). -/
theorem getMigrationFiles_sorted (env : Env) (dir : Str) (files : List Str)
    (h : (getMigrationFiles env dir).1 = .ok files) :
    List.Chain' strLe files ∧ List.Pairwise strLe files := by
  obtain ⟨fis, hfis⟩ := getMigrationFiles_ok_inv env dir files h
  rw [getMigrationFiles_ok env dir fis hfis] at h
  simp only [Except.ok.injEq] at h
  subst h
  have hs := sortStrings_sorted
    ((fis.filter fun fi => !fi.IsDir && MatchString fi.Name).map FileInfo.Name)
  exact ⟨List.Pairwise.chain' hs, hs⟩

theorem getMigrationFiles_sorted_witness :
    (getMigrationFiles (envOf sampleListing) (bytesOf "migrations")).1
        = .ok [bytesOf "01__first.sql", bytesOf "02__second.sql"]
      ∧ List.Chain' strLe [bytesOf "01__first.sql", bytesOf "02__second.sql"]
      ∧ List.Pairwise strLe [bytesOf "01__first.sql", bytesOf "02__second.sql"] :=
  ⟨rfl, getMigrationFiles_sorted (envOf sampleListing) (bytesOf "migrations") _ rfl⟩

/-- C3: `getMigrationFiles` partitions the entries of the listing.  The returned filenames are, as
a multiset, the names of the entries that are not directories and whose name the pattern accepts;
the logged `skipped` count is the number of all other entries; `len(files) + skipped` is the
number of entries; and an empty directory gives an empty list, `skipped = 0` and no error. -/
theorem getMigrationFiles_partition (env : Env) (dir : Str) (fis : List FileInfo)
    (h : env.ReadDir dir = .ok fis) :
    ∃ files skipped,
      getMigrationFiles env dir = (.ok files, [.readDir dir, .logPrintf files.length skipped])
      ∧ files.Perm ((fis.filter fun fi => !fi.IsDir && MatchString fi.Name).map FileInfo.Name)
      ∧ skipped = (fis.filter fun fi => fi.IsDir || !MatchString fi.Name).length
      ∧ files.length + skipped = fis.length
      ∧ (fis = [] → files = [] ∧ skipped = 0) := by
  refine ⟨_, _, getMigrationFiles_ok env dir fis h, sortStrings_perm _, rfl, ?_, ?_⟩
  · rw [(sortStrings_perm _).length_eq, List.length_map]
    exact filter_length_split fis
  · rintro rfl
    exact ⟨rfl, rfl⟩

theorem getMigrationFiles_partition_witness :
    ∃ files skipped,
      getMigrationFiles (envOf sampleListing) (bytesOf "migrations")
        = (.ok files, [.readDir (bytesOf "migrations"), .logPrintf files.length skipped])
      ∧ files.Perm
          ((sampleListing.filter fun fi => !fi.IsDir && MatchString fi.Name).map FileInfo.Name)
      ∧ skipped = (sampleListing.filter fun fi => fi.IsDir || !MatchString fi.Name).length
      ∧ files.length + skipped = sampleListing.length
      ∧ (sampleListing = [] → files = [] ∧ skipped = 0) :=
  getMigrationFiles_partition (envOf sampleListing) (bytesOf "migrations") sampleListing rfl

/-- C9: `getMigrationFiles` does not depend on the order in which the entries are listed: on two
listings that are permutations of each other (in particular on the same listing twice) it returns
the same filename list and logs the same counts. -/
theorem getMigrationFiles_perm (env₁ env₂ : Env) (dir : Str) (fis₁ fis₂ : List FileInfo)
    (h₁ : env₁.ReadDir dir = .ok fis₁) (h₂ : env₂.ReadDir dir = .ok fis₂)
    (hp : fis₁.Perm fis₂) :
    getMigrationFiles env₁ dir = getMigrationFiles env₂ dir := by
  rw [getMigrationFiles_ok env₁ dir fis₁ h₁, getMigrationFiles_ok env₂ dir fis₂ h₂]
  have hk : sortStrings ((fis₁.filter fun fi => !fi.IsDir && MatchString fi.Name).map FileInfo.Name)
      = sortStrings ((fis₂.filter fun fi => !fi.IsDir && MatchString fi.Name).map FileInfo.Name) :=
    sortStrings_congr _ _ ((hp.filter _).map _)
  have hl : (fis₁.filter fun fi => fi.IsDir || !MatchString fi.Name).length
      = (fis₂.filter fun fi => fi.IsDir || !MatchString fi.Name).length :=
    (hp.filter _).length_eq
  rw [hk, hl]

theorem getMigrationFiles_perm_witness :
    sampleListing.Perm sampleListingPermuted
      ∧ getMigrationFiles (envOf sampleListing) (bytesOf "migrations")
        = getMigrationFiles (envOf sampleListingPermuted) (bytesOf "migrations") :=
  ⟨by decide, getMigrationFiles_perm (envOf sampleListing) (envOf sampleListingPermuted)
    (bytesOf "migrations") sampleListing sampleListingPermuted rfl rfl (by decide)⟩

/-! ## Loading one file -/

theorem doExecute_parts (s : Str) (m : List Str) (h : doExecute s = some m) :
    ∃ whole d1 d2 title, m = [whole, [d1, d2], title] ∧ isDigit d1 = true ∧ isDigit d2 = true := by
  obtain ⟨_, rest, _, hm, _⟩ := doExecute_spec s m h
  obtain ⟨d1, d2, c, t, e, _, _, rfl, h1, h2, _⟩ := matchAt_spec rest m hm
  exact ⟨_, d1, d2, _, rfl, h1, h2⟩

theorem FindStringSubmatch_of_match (s : Str) (h : MatchString s = true) :
    ∃ whole d1 d2 title, FindStringSubmatch s = [whole, [d1, d2], title]
      ∧ isDigit d1 = true ∧ isDigit d2 = true := by
  unfold MatchString at h
  cases hd : doExecute s with
  | none => rw [hd] at h; simp at h
  | some m =>
    obtain ⟨whole, d1, d2, title, rfl, h1, h2⟩ := doExecute_parts s m hd
    exact ⟨whole, d1, d2, title, by simp [FindStringSubmatch, hd], h1, h2⟩

theorem FindStringSubmatch_of_no_match (s : Str) (h : MatchString s = false) :
    FindStringSubmatch s = [] := by
  unfold MatchString at h
  cases hd : doExecute s with
  | none => simp [FindStringSubmatch, hd]
  | some m => rw [hd] at h; simp at h

/-- What a successful `initMigration` has done: the pattern matched, the first group parsed to
the ID, the file opened and read, and the record holds the second group, the hexadecimal MD5
digest of the bytes read and the bytes themselves. -/
theorem initMigration_ok_inv (env : Env) (dir file : Str) (m : migration)
    (h : (initMigration env dir file).1 = .ok m) :
    ∃ whole d1 d2 title b, FindStringSubmatch file = [whole, [d1, d2], title]
      ∧ isDigit d1 = true ∧ isDigit d2 = true
      ∧ env.Open dir file = .ok (.ok b)
      ∧ m = { ID := ((10 * (d1 - 48) + (d2 - 48) : Nat) : Int), Title := title,
              MD5Sum := hexEncode (md5Sum b), content := b } := by
  cases hms : MatchString file with
  | false =>
    simp [initMigration, FindStringSubmatch_of_no_match file hms] at h
  | true =>
    obtain ⟨whole, d1, d2, title, hf, h1, h2⟩ := FindStringSubmatch_of_match file hms
    refine ⟨whole, d1, d2, title, ?_⟩
    simp only [initMigration, hf, List.length_cons, List.length_nil, ne_eq, not_true_eq_false,
      if_false, List.getD_cons_succ, List.getD_cons_zero, Atoi_two_digits d1 d2 h1 h2] at h
    cases ho : env.Open dir file with
    | error e => rw [ho] at h; simp at h
    | ok f =>
      cases f with
      | error e => rw [ho] at h; simp at h
      | ok b =>
        rw [ho] at h
        simp only [Except.ok.injEq] at h
        exact ⟨b, hf, h1, h2, rfl, h.symm⟩

/-- On a name the pattern matches, `initMigration` passes both format checks and its outcome is
that of opening and reading the file. -/
theorem initMigration_of_match (env : Env) (dir file : Str) (h : MatchString file = true) :
    ∃ whole d1 d2 title, FindStringSubmatch file = [whole, [d1, d2], title]
      ∧ isDigit d1 = true ∧ isDigit d2 = true
      ∧ initMigration env dir file =
        match env.Open dir file with
        | .error e => (.error (.os e), [.openFile dir file])
        | .ok (.error e) =>
          (.error (.os e), [.openFile dir file, .readAll dir file, .closeFile dir file])
        | .ok (.ok b) =>
          (.ok { ID := ((10 * (d1 - 48) + (d2 - 48) : Nat) : Int), Title := title,
                 MD5Sum := hexEncode (md5Sum b), content := b },
            [.openFile dir file, .readAll dir file, .closeFile dir file]) := by
  obtain ⟨whole, d1, d2, title, hf, h1, h2⟩ := FindStringSubmatch_of_match file h
  refine ⟨whole, d1, d2, title, hf, h1, h2, ?_⟩
  simp only [initMigration, hf, List.length_cons, List.length_nil, ne_eq, not_true_eq_false,
    if_false, List.getD_cons_succ, List.getD_cons_zero, Atoi_two_digits d1 d2 h1 h2]
  cases env.Open dir file with
  | error e => rfl
  | ok f => cases f <;> rfl

theorem initMigration_of_no_match (env : Env) (dir file : Str) (h : MatchString file = false) :
    initMigration env dir file = (.error (.threeParts 0 []), []) := by
  simp [initMigration, FindStringSubmatch_of_no_match file h]

theorem mem_getMigrationFiles (env : Env) (dir : Str) (files : List Str)
    (h : (getMigrationFiles env dir).1 = .ok files) (name : Str) (hn : name ∈ files) :
    MatchString name = true
      ∧ ∃ fis, env.ReadDir dir = .ok fis ∧ (⟨name, false⟩ : FileInfo) ∈ fis := by
  obtain ⟨fis, hfis⟩ := getMigrationFiles_ok_inv env dir files h
  rw [getMigrationFiles_ok env dir fis hfis] at h
  simp only [Except.ok.injEq] at h
  subst h
  have hmem := (sortStrings_perm _).mem_iff.1 hn
  simp only [List.mem_map, List.mem_filter, Bool.and_eq_true, Bool.not_eq_true'] at hmem
  obtain ⟨fi, ⟨hfi, hd, hm⟩, rfl⟩ := hmem
  refine ⟨hm, fis, hfis, ?_⟩
  have : fi = ⟨fi.Name, false⟩ := by
    cases fi
    simp_all
  rw [← this]
  exact hfi

/-- C4: for ASCII digits `d1 d2` and a non-empty title of bytes from `[A-Za-z0-9_-]`, if the file
`d1d2__title.sql` opens and reads, `initMigration` succeeds with `ID = 10*d1 + d2` (digit values)
and `Title = title`, byte for byte. -/
theorem initMigration_wellformed (env : Env) (dir : Str) (d1 d2 : Nat) (title b : Str)
    (h1 : isDigit d1 = true) (h2 : isDigit d2 = true) (hne : title ≠ [])
    (ht : ∀ x ∈ title, isTitleByte x = true)
    (hfile : env.Open dir ([d1, d2] ++ bytesOf "__" ++ title ++ bytesOf ".sql") = .ok (.ok b)) :
    ∃ m, (initMigration env dir ([d1, d2] ++ bytesOf "__" ++ title ++ bytesOf ".sql")).1 = .ok m
      ∧ m.ID = ((10 * (d1 - 48) + (d2 - 48) : Nat) : Int) ∧ m.Title = title := by
  have e1 : bytesOf "__" = [95, 95] := by decide
  have e2 : bytesOf ".sql" = 46 :: sqlBytes := by decide
  rw [e1, e2] at hfile ⊢
  cases title with
  | nil => exact absurd rfl hne
  | cons c t =>
    have hc : isTitleByte c = true := ht c (List.mem_cons_self _ _)
    have htt : ∀ x ∈ t, isTitleByte x = true := fun x hx => ht x (List.mem_cons_of_mem _ hx)
    have hdo := doExecute_wellformed d1 d2 c t h1 h2 hc htt
    have hshape : [d1, d2] ++ [95, 95] ++ c :: t ++ 46 :: sqlBytes
        = d1 :: d2 :: 95 :: 95 :: c :: (t ++ 46 :: sqlBytes) := by simp
    rw [hshape] at hfile ⊢
    refine ⟨{ ID := ((10 * (d1 - 48) + (d2 - 48) : Nat) : Int), Title := c :: t,
              MD5Sum := hexEncode (md5Sum b), content := b }, ?_, rfl, rfl⟩
    simp only [initMigration, FindStringSubmatch, hdo, List.length_cons, List.length_nil, ne_eq,
      not_true_eq_false, if_false, List.getD_cons_succ, List.getD_cons_zero,
      Atoi_two_digits d1 d2 h1 h2, hfile]

theorem initMigration_wellformed_witness :
    ∃ m, (initMigration (envOf sampleListing) (bytesOf "migrations")
        ([48, 53] ++ bytesOf "__" ++ bytesOf "init_schema" ++ bytesOf ".sql")).1 = .ok m
      ∧ m.ID = ((10 * (48 - 48) + (53 - 48) : Nat) : Int) ∧ m.Title = bytesOf "init_schema" :=
  initMigration_wellformed (envOf sampleListing) (bytesOf "migrations") 48 53
    (bytesOf "init_schema") sampleContent (by decide) (by decide) (by decide) (by decide) rfl

/-! ## The checksum -/

theorem leBytes_length (n x : Nat) : (leBytes n x).length = n := by
  induction n generalizing x with
  | zero => rfl
  | succ k ih => simp [leBytes, ih]

theorem leBytes_lt (n x : Nat) : ∀ y ∈ leBytes n x, y < 256 := by
  induction n generalizing x with
  | zero => simp [leBytes]
  | succ k ih =>
    intro y hy
    simp only [leBytes, List.mem_cons] at hy
    rcases hy with rfl | hy
    · exact Nat.mod_lt _ (by norm_num)
    · exact ih _ y hy

/-- The digest of `md5.Sum` has 16 bytes. -/
theorem md5Sum_length (b : Str) : (md5Sum b).length = 16 := by
  simp [md5Sum, leBytes_length]

theorem md5Sum_lt (b : Str) : ∀ y ∈ md5Sum b, y < 256 := by
  intro y hy
  simp only [md5Sum, List.mem_append] at hy
  rcases hy with ((hy | hy) | hy) | hy <;> exact leBytes_lt _ _ y hy

set_option maxRecDepth 100000 in
/-- The digests of the empty string and of `abc` (RFC 1321, appendix A.5). -/
theorem md5Sum_test_vectors :
    hexEncode (md5Sum []) = bytesOf "d41d8cd98f00b204e9800998ecf8427e"
      ∧ hexEncode (md5Sum (bytesOf "abc")) = bytesOf "900150983cd24fb0d6963f7d28e17f72" := by
  constructor <;> decide

theorem hexEncode_length (bs : List Nat) : (hexEncode bs).length = 2 * bs.length := by
  induction bs with
  | nil => rfl
  | cons x xs ih =>
    have : hexEncode (x :: xs) = hexDigit (x / 16) :: hexDigit (x % 16) :: hexEncode xs := rfl
    rw [this]
    simp [ih]
    omega

theorem hexDigit_lower (n : Nat) (h : n < 16) :
    (48 ≤ hexDigit n ∧ hexDigit n ≤ 57) ∨ (97 ≤ hexDigit n ∧ hexDigit n ≤ 102) := by
  unfold hexDigit
  split_ifs <;> omega

theorem hexEncode_lower (bs : List Nat) (hb : ∀ y ∈ bs, y < 256) :
    ∀ c ∈ hexEncode bs, (48 ≤ c ∧ c ≤ 57) ∨ (97 ≤ c ∧ c ≤ 102) := by
  induction bs with
  | nil => simp [hexEncode]
  | cons x xs ih =>
    have hx : x < 256 := hb x (List.mem_cons_self _ _)
    have he : hexEncode (x :: xs) = hexDigit (x / 16) :: hexDigit (x % 16) :: hexEncode xs := rfl
    intro c hc
    rw [he] at hc
    simp only [List.mem_cons] at hc
    rcases hc with rfl | rfl | hc
    · exact hexDigit_lower _ (by omega)
    · exact hexDigit_lower _ (by omega)
    · exact ih (fun y hy => hb y (List.mem_cons_of_mem _ hy)) c hc

theorem hexEncode_getD (bs : List Nat) (i : Nat) (hi : i < bs.length) :
    (hexEncode bs).getD (2 * i) 0 = hexDigit (bs.getD i 0 / 16)
      ∧ (hexEncode bs).getD (2 * i + 1) 0 = hexDigit (bs.getD i 0 % 16) := by
  induction bs generalizing i with
  | nil => simp at hi
  | cons x xs ih =>
    have he : hexEncode (x :: xs) = hexDigit (x / 16) :: hexDigit (x % 16) :: hexEncode xs := rfl
    rw [he]
    cases i with
    | zero => simp
    | succ k =>
      have hk : k < xs.length := by simpa using hi
      have e1 : 2 * (k + 1) = (2 * k) + 1 + 1 := by ring
      rw [e1]
      simp only [List.getD_cons_succ]
      exact ih k hk

/-- C5: the checksum depends only on the bytes of the file: when two calls of `initMigration`
succeed, with any two file systems, directories and filenames, on files whose contents are the
same bytes `b`, the two `MD5Sum` strings are equal (both are the hexadecimal MD5 digest of `b`). -/
theorem initMigration_checksum_deterministic (env₁ env₂ : Env) (dir₁ dir₂ file₁ file₂ b : Str)
    (m₁ m₂ : migration)
    (h₁ : (initMigration env₁ dir₁ file₁).1 = .ok m₁)
    (h₂ : (initMigration env₂ dir₂ file₂).1 = .ok m₂)
    (hb₁ : env₁.Open dir₁ file₁ = .ok (.ok b)) (hb₂ : env₂.Open dir₂ file₂ = .ok (.ok b)) :
    m₁.MD5Sum = m₂.MD5Sum ∧ m₁.MD5Sum = hexEncode (md5Sum b) := by
  obtain ⟨_, _, _, _, b₁, _, _, _, ho₁, rfl⟩ := initMigration_ok_inv env₁ dir₁ file₁ m₁ h₁
  obtain ⟨_, _, _, _, b₂, _, _, _, ho₂, rfl⟩ := initMigration_ok_inv env₂ dir₂ file₂ m₂ h₂
  rw [hb₁] at ho₁
  rw [hb₂] at ho₂
  simp only [Except.ok.injEq] at ho₁ ho₂
  subst ho₁ ho₂
  exact ⟨rfl, rfl⟩

theorem initMigration_checksum_deterministic_witness :
    (initMigration (envOf sampleListing) (bytesOf "a") (bytesOf "01__first.sql")).1
        = .ok ⟨1, bytesOf "first", hexEncode (md5Sum sampleContent), sampleContent⟩
      ∧ (initMigration (envOf repeatListing) (bytesOf "b") (bytesOf "02__b.sql")).1
        = .ok ⟨2, bytesOf "b", hexEncode (md5Sum sampleContent), sampleContent⟩
      ∧ hexEncode (md5Sum sampleContent) = hexEncode (md5Sum sampleContent)
      ∧ hexEncode (md5Sum sampleContent) = hexEncode (md5Sum sampleContent) :=
  ⟨rfl, rfl, initMigration_checksum_deterministic (envOf sampleListing) (envOf repeatListing)
    (bytesOf "a") (bytesOf "b") (bytesOf "01__first.sql") (bytesOf "02__b.sql") sampleContent
    ⟨1, bytesOf "first", hexEncode (md5Sum sampleContent), sampleContent⟩
    ⟨2, bytesOf "b", hexEncode (md5Sum sampleContent), sampleContent⟩ rfl rfl rfl rfl⟩

theorem hexDigit_ascii (n : Nat) :
    hexDigit n = if n < 10 then 48 + n else 97 + (n - 10) := by
  unfold hexDigit
  split_ifs <;> omega

set_option maxRecDepth 100000 in
/-- The test suite of RFC 1321 (appendix A.5), in hexadecimal: inputs of 0, 1, 3, 14, 26, 62 and
80 bytes, the last two with two blocks. -/
theorem md5Sum_rfc_suite :
    hexEncode (md5Sum []) = bytesOf "d41d8cd98f00b204e9800998ecf8427e"
      ∧ hexEncode (md5Sum (bytesOf "a")) = bytesOf "0cc175b9c0f1b6a831c399e269772661"
      ∧ hexEncode (md5Sum (bytesOf "abc")) = bytesOf "900150983cd24fb0d6963f7d28e17f72"
      ∧ hexEncode (md5Sum (bytesOf "message digest"))
        = bytesOf "f96b697d7cb7938d525a2f31aaf161d0"
      ∧ hexEncode (md5Sum (bytesOf "abcdefghijklmnopqrstuvwxyz"))
        = bytesOf "c3fcd3d76192e4007dfb496cca67e13b"
      ∧ hexEncode (md5Sum
          (bytesOf "ABCDEFGHIJKLMNOPQRSTUVWXYZabcdefghijklmnopqrstuvwxyz0123456789"))
        = bytesOf "d174ab98d277d9f5a5611c2c9f419d9f"
      ∧ hexEncode (md5Sum (bytesOf
          "12345678901234567890123456789012345678901234567890123456789012345678901234567890"))
        = bytesOf "57edf4a22be3c955ac49da2e2107b67a" := by
  refine ⟨?_, ?_, ?_, ?_, ?_, ?_, ?_⟩ <;> decide

set_option maxRecDepth 100000 in
/-- The checksum of the content `CREATE TABLE t(x);`. -/
theorem md5Sum_sampleContent :
    hexEncode (md5Sum (bytesOf "CREATE TABLE t(x);"))
      = bytesOf "6195bfaba2a0ebbeba1f6191fa861827" := by
  decide

/-- C6: after a successful `initMigration` the `MD5Sum` is the lowercase hexadecimal encoding of
the 16-byte MD5 digest of the bytes `b` read from the file.  It has 32 characters, each in `0-9`
or `a-f`; for every digest byte `d` (number `i`), the character at `2i` is the digit of `d / 16`
and the character at `2i+1` the digit of `d % 16`, where the digit of `v` is the ASCII character
`'0' + v` below ten and `'a' + (v - 10)` from ten on.  The digest is the MD5 one: on every input
of the RFC 1321 test suite the `MD5Sum` is the string the RFC gives, whatever the filename. -/
theorem initMigration_checksum_hex (env : Env) (dir file : Str) (m : migration)
    (h : (initMigration env dir file).1 = .ok m) :
    ∃ b, env.Open dir file = .ok (.ok b)
      ∧ (md5Sum b).length = 16 ∧ (∀ y ∈ md5Sum b, y < 256)
      ∧ m.MD5Sum.length = 32
      ∧ (∀ c ∈ m.MD5Sum, (48 ≤ c ∧ c ≤ 57) ∨ (97 ≤ c ∧ c ≤ 102))
      ∧ (∀ i, i < 16 →
          m.MD5Sum.getD (2 * i) 0
            = (if (md5Sum b).getD i 0 / 16 < 10 then 48 + (md5Sum b).getD i 0 / 16
               else 97 + ((md5Sum b).getD i 0 / 16 - 10))
          ∧ m.MD5Sum.getD (2 * i + 1) 0
            = (if (md5Sum b).getD i 0 % 16 < 10 then 48 + (md5Sum b).getD i 0 % 16
               else 97 + ((md5Sum b).getD i 0 % 16 - 10)))
      ∧ (b = [] → m.MD5Sum = bytesOf "d41d8cd98f00b204e9800998ecf8427e")
      ∧ (b = bytesOf "a" → m.MD5Sum = bytesOf "0cc175b9c0f1b6a831c399e269772661")
      ∧ (b = bytesOf "abc" → m.MD5Sum = bytesOf "900150983cd24fb0d6963f7d28e17f72")
      ∧ (b = bytesOf "message digest" → m.MD5Sum = bytesOf "f96b697d7cb7938d525a2f31aaf161d0")
      ∧ (b = bytesOf "abcdefghijklmnopqrstuvwxyz"
          → m.MD5Sum = bytesOf "c3fcd3d76192e4007dfb496cca67e13b")
      ∧ (b = bytesOf "ABCDEFGHIJKLMNOPQRSTUVWXYZabcdefghijklmnopqrstuvwxyz0123456789"
          → m.MD5Sum = bytesOf "d174ab98d277d9f5a5611c2c9f419d9f")
      ∧ (b = bytesOf
            "12345678901234567890123456789012345678901234567890123456789012345678901234567890"
          → m.MD5Sum = bytesOf "57edf4a22be3c955ac49da2e2107b67a")
      ∧ (b = bytesOf "CREATE TABLE t(x);"
          → m.MD5Sum = bytesOf "6195bfaba2a0ebbeba1f6191fa861827") := by
  obtain ⟨_, _, _, _, b, _, _, _, ho, rfl⟩ := initMigration_ok_inv env dir file m h
  obtain ⟨v0, v1, v2, v3, v4, v5, v6⟩ := md5Sum_rfc_suite
  refine ⟨b, ho, md5Sum_length b, md5Sum_lt b, ?_, hexEncode_lower _ (md5Sum_lt b), ?_,
    ?_, ?_, ?_, ?_, ?_, ?_, ?_, ?_⟩
  · simp [hexEncode_length, md5Sum_length]
  · intro i hi
    have hd := hexEncode_getD (md5Sum b) i (by rw [md5Sum_length]; exact hi)
    rw [hexDigit_ascii, hexDigit_ascii] at hd
    exact hd
  · rintro rfl; exact v0
  · rintro rfl; exact v1
  · rintro rfl; exact v2
  · rintro rfl; exact v3
  · rintro rfl; exact v4
  · rintro rfl; exact v5
  · rintro rfl; exact v6
  · rintro rfl; exact md5Sum_sampleContent

theorem initMigration_checksum_hex_witness :
    (initMigration (envOf sampleListing) (bytesOf "migrations")
        (bytesOf "05__init_schema.sql")).1
        = .ok ⟨5, bytesOf "init_schema", bytesOf "6195bfaba2a0ebbeba1f6191fa861827",
            bytesOf "CREATE TABLE t(x);"⟩
      ∧ (bytesOf "6195bfaba2a0ebbeba1f6191fa861827").length = 32
      ∧ (∀ c ∈ bytesOf "6195bfaba2a0ebbeba1f6191fa861827",
          (48 ≤ c ∧ c ≤ 57) ∨ (97 ≤ c ∧ c ≤ 102))
      ∧ (md5Sum (bytesOf "CREATE TABLE t(x);")).getD 0 0 = 0x61
      ∧ (bytesOf "6195bfaba2a0ebbeba1f6191fa861827").getD 0 0 = 48 + 0x61 / 16
      ∧ (bytesOf "6195bfaba2a0ebbeba1f6191fa861827").getD 1 0 = 48 + 0x61 % 16 := by
  have hyp : (initMigration (envOf sampleListing) (bytesOf "migrations")
      (bytesOf "05__init_schema.sql")).1
      = .ok ⟨5, bytesOf "init_schema", bytesOf "6195bfaba2a0ebbeba1f6191fa861827",
          bytesOf "CREATE TABLE t(x);"⟩ := by
    rw [← md5Sum_sampleContent]
    rfl
  obtain ⟨b, hb, _, _, hlen, hchars, hdig, _⟩ :=
    initMigration_checksum_hex (envOf sampleListing) (bytesOf "migrations")
      (bytesOf "05__init_schema.sql") _ hyp
  have hbe : b = bytesOf "CREATE TABLE t(x);" := by
    have : (Except.ok (Except.ok sampleContent) : Except Nat (Except Nat Str))
        = .ok (.ok b) := hb
    simp only [Except.ok.injEq] at this
    exact this.symm
  subst hbe
  have h0 : (md5Sum (bytesOf "CREATE TABLE t(x);")).getD 0 0 = 0x61 := by decide
  have hd0 := hdig 0 (by decide)
  rw [h0] at hd0
  exact ⟨hyp, hlen, hchars, h0, hd0.1, hd0.2⟩

/-! ## The two uses of the pattern agree -/

/-- C10: the re-check of `initMigration` agrees with the test of `getMigrationFiles`.  For every
filename, `initMigration` returns the error "expected three parts from regex" exactly when
`MatchString` rejects the name, and then it has performed no action (no file was opened); hence
on a name returned by `getMigrationFiles` an error of `initMigration` can only be an error of the
operating system. -/
theorem initMigration_parse_error_iff (env : Env) (dir file : Str) :
    ((∃ n parts, (initMigration env dir file).1 = .error (.threeParts n parts))
        ↔ MatchString file = false)
      ∧ (MatchString file = false → initMigration env dir file = (.error (.threeParts 0 []), []))
      ∧ (∀ (env₀ : Env) (dir₀ : Str) (files : List Str),
          (getMigrationFiles env₀ dir₀).1 = .ok files → file ∈ files →
          ∀ e, (initMigration env dir file).1 = .error e → ∃ errno, e = .os errno) := by
  have key : MatchString file = true →
      ∀ e, (initMigration env dir file).1 = .error e → ∃ errno, e = .os errno := by
    intro hm e he
    obtain ⟨_, _, _, _, _, _, _, hi⟩ := initMigration_of_match env dir file hm
    rw [hi] at he
    cases ho : env.Open dir file with
    | error x =>
      rw [ho] at he
      exact ⟨x, by simpa using he.symm⟩
    | ok f =>
      cases f with
      | error x =>
        rw [ho] at he
        exact ⟨x, by simpa using he.symm⟩
      | ok b =>
        rw [ho] at he
        simp at he
  refine ⟨⟨?_, ?_⟩, initMigration_of_no_match env dir file, ?_⟩
  · rintro ⟨n, parts, he⟩
    cases hm : MatchString file with
    | false => rfl
    | true =>
      obtain ⟨errno, hx⟩ := key hm _ he
      simp at hx
  · intro hm
    exact ⟨0, [], by rw [initMigration_of_no_match env dir file hm]⟩
  · intro env₀ dir₀ files hfiles hmem
    exact key (mem_getMigrationFiles env₀ dir₀ files hfiles file hmem).1

/-! ## The pattern against the grammar of the specification -/

/-- Every name of the grammar is accepted by the pattern. -/
theorem MatchString_of_specGrammar (name : Str) (h : specGrammar name = true) :
    MatchString name = true := by
  match name, h with
  | d1 :: d2 :: 95 :: 95 :: rest, h =>
    simp only [specGrammar, Bool.and_eq_true, decide_eq_true_eq, List.all_eq_true,
      beq_iff_eq] at h
    obtain ⟨⟨⟨⟨h1, h2⟩, hlen⟩, ht⟩, hsql⟩ := h
    have hrest : rest = rest.take (rest.length - 4) ++ 46 :: sqlBytes := by
      conv_lhs => rw [← List.take_append_drop (rest.length - 4) rest, hsql]
      rfl
    cases htake : rest.take (rest.length - 4) with
    | nil =>
      have := congrArg List.length htake
      simp at this
      omega
    | cons c t =>
      rw [htake] at hrest ht
      have hc : isTitleByte c = true := ht c (List.mem_cons_self _ _)
      have htt : ∀ x ∈ t, isTitleByte x = true := fun x hx => ht x (List.mem_cons_of_mem _ hx)
      have hdo := doExecute_wellformed d1 d2 c t h1 h2 hc htt
      rw [hrest]
      simp only [MatchString, List.cons_append, hdo, Option.isSome_some]

/-- C2: the pattern is searched anywhere in the name, so `getMigrationFiles` returns the name
`01__a.sql.bak`, which the grammar of the specification (anchored to the whole name) rejects. -/
theorem getMigrationFiles_returns_ungrammatical :
    (getMigrationFiles (envOf backupListing) (bytesOf "migrations")).1
        = .ok [bytesOf "01__a.sql", bytesOf "01__a.sql.bak"]
      ∧ specGrammar (bytesOf "01__a.sql.bak") = false
      ∧ FindStringSubmatch (bytesOf "01__a.sql.bak")
        = [bytesOf "01__a.sql", bytesOf "01", bytesOf "a"] :=
  ⟨rfl, rfl, rfl⟩

/-! ## The run -/

theorem loadAll_ok_inv (env : Env) (dir : Str) (files : List Str) (ms : List migration)
    (h : (loadAll env dir files).1 = .ok ms) :
    List.Forall₂ (fun file m => (initMigration env dir file).1 = .ok m) files ms := by
  induction files generalizing ms with
  | nil =>
    simp only [loadAll, Except.ok.injEq] at h
    subst h
    exact List.Forall₂.nil
  | cons file rest ih =>
    simp only [loadAll] at h
    rcases hi : initMigration env dir file with ⟨r, tr⟩
    rw [hi] at h
    cases r with
    | error e => simp at h
    | ok m =>
      rcases hl : loadAll env dir rest with ⟨r2, tr2⟩
      rw [hl] at h
      cases r2 with
      | error e => simp at h
      | ok ms2 =>
        simp only [Except.ok.injEq] at h
        subst h
        exact List.Forall₂.cons (by rw [hi]) (ih ms2 (by rw [hl]))

theorem start_ok_inv (env : Env) (db : DB) (dir : Str) (h : (start env db dir).1 = none) :
    ∃ files ms, (getMigrationFiles env dir).1 = .ok files
      ∧ (startMigrations env dir).1 = .ok ms ∧ (loadAll env dir files).1 = .ok ms := by
  unfold start at h
  rcases hs : startMigrations env dir with ⟨r, tr⟩
  rw [hs] at h
  cases r with
  | error e => simp at h
  | ok ms =>
    unfold startMigrations at hs
    rcases hg : getMigrationFiles env dir with ⟨g, tr1⟩
    rw [hg] at hs
    cases g with
    | error e => simp at hs
    | ok files =>
      simp only [Prod.mk.injEq] at hs
      exact ⟨files, ms, rfl, rfl, hs.1⟩

/-- C7: the files `02__a.sql` and `x01__a.sql` are both discovered (the pattern is found at
offset 1 of the second name), sorted in this order, and loaded with the IDs 2 and then 1: the
order of the filenames is not the order of the IDs. -/
theorem start_ids_not_ascending :
    (getMigrationFiles (envOf offsetListing) (bytesOf "migrations")).1
        = .ok [bytesOf "02__a.sql", bytesOf "x01__a.sql"]
      ∧ (loadAll (envOf offsetListing) (bytesOf "migrations")
            [bytesOf "02__a.sql", bytesOf "x01__a.sql"]).1
        = .ok [⟨2, bytesOf "a", hexEncode (md5Sum sampleContent), sampleContent⟩,
               ⟨1, bytesOf "a", hexEncode (md5Sum sampleContent), sampleContent⟩]
      ∧ (start (envOf offsetListing) ⟨[]⟩ (bytesOf "migrations")).1 = none
      ∧ ¬ ((2 : Int) ≤ 1) :=
  ⟨rfl, rfl, rfl, by decide⟩

/-- C8, as stated, fails: on a directory with `01__a.sql`, `01__b.sql` and `02__b.sql` of equal
content, `start` succeeds and the loaded records repeat an ID, a Title and an MD5Sum. -/
theorem start_repeats_id_title_checksum :
    (start (envOf repeatListing) ⟨[]⟩ (bytesOf "migrations")).1 = none
      ∧ ∃ ms, (startMigrations (envOf repeatListing) (bytesOf "migrations")).1 = .ok ms
        ∧ ¬ (ms.map migration.ID).Nodup ∧ ¬ (ms.map migration.Title).Nodup
        ∧ ¬ (ms.map migration.MD5Sum).Nodup :=
  ⟨rfl, [⟨1, bytesOf "a", hexEncode (md5Sum sampleContent), sampleContent⟩,
         ⟨1, bytesOf "b", hexEncode (md5Sum sampleContent), sampleContent⟩,
         ⟨2, bytesOf "b", hexEncode (md5Sum sampleContent), sampleContent⟩],
    rfl, by decide, by decide, by simp⟩

/-- C8, amended: when `start` succeeds, the loaded records are, in the discovered order, one per
discovered file, and each record is determined by its own file alone: the ID and the Title by the
pattern match on its name, the MD5Sum and the content by its bytes.  No record is compared with
another one, so records of equal content always have equal MD5Sum. -/
theorem start_loads_each_file (env : Env) (db : DB) (dir : Str) (h : (start env db dir).1 = none) :
    ∃ files ms, (getMigrationFiles env dir).1 = .ok files
      ∧ (startMigrations env dir).1 = .ok ms
      ∧ List.Forall₂
          (fun file m => ∃ whole d1 d2 b,
            FindStringSubmatch file = [whole, [d1, d2], m.Title]
            ∧ m.ID = ((10 * (d1 - 48) + (d2 - 48) : Nat) : Int)
            ∧ env.Open dir file = .ok (.ok b)
            ∧ m.content = b ∧ m.MD5Sum = hexEncode (md5Sum b))
          files ms
      ∧ ∀ m₁ ∈ ms, ∀ m₂ ∈ ms, m₁.content = m₂.content → m₁.MD5Sum = m₂.MD5Sum := by
  obtain ⟨files, ms, hg, hs, hl⟩ := start_ok_inv env db dir h
  have hall := loadAll_ok_inv env dir files ms hl
  have hrec : List.Forall₂
      (fun file m => ∃ whole d1 d2 b,
        FindStringSubmatch file = [whole, [d1, d2], m.Title]
        ∧ m.ID = ((10 * (d1 - 48) + (d2 - 48) : Nat) : Int)
        ∧ env.Open dir file = .ok (.ok b)
        ∧ m.content = b ∧ m.MD5Sum = hexEncode (md5Sum b))
      files ms := by
    refine hall.imp ?_
    intro file m hm
    obtain ⟨whole, d1, d2, title, b, hf, _, _, ho, rfl⟩ := initMigration_ok_inv env dir file m hm
    exact ⟨whole, d1, d2, b, hf, rfl, ho, rfl, rfl⟩
  refine ⟨files, ms, hg, hs, hrec, ?_⟩
  have hsum : ∀ m ∈ ms, m.MD5Sum = hexEncode (md5Sum m.content) := by
    intro m hm
    obtain ⟨i, hi, rfl⟩ := List.getElem_of_mem hm
    have hlen := hrec.length_eq
    have := List.Forall₂.get hrec (by omega : i < files.length) hi
    obtain ⟨_, _, _, b, _, _, _, hc, hs⟩ := this
    simp only [List.get_eq_getElem] at hc hs
    rw [hs, hc]
  intro m₁ h₁ m₂ h₂ hc
  rw [hsum m₁ h₁, hsum m₂ h₂, hc]

theorem start_loads_each_file_witness :
    ∃ files ms, (getMigrationFiles (envOf repeatListing) (bytesOf "migrations")).1 = .ok files
      ∧ (startMigrations (envOf repeatListing) (bytesOf "migrations")).1 = .ok ms
      ∧ List.Forall₂
          (fun file m => ∃ whole d1 d2 b,
            FindStringSubmatch file = [whole, [d1, d2], m.Title]
            ∧ m.ID = ((10 * (d1 - 48) + (d2 - 48) : Nat) : Int)
            ∧ (envOf repeatListing).Open (bytesOf "migrations") file = .ok (.ok b)
            ∧ m.content = b ∧ m.MD5Sum = hexEncode (md5Sum b))
          files ms
      ∧ ∀ m₁ ∈ ms, ∀ m₂ ∈ ms, m₁.content = m₂.content → m₁.MD5Sum = m₂.MD5Sum :=
  start_loads_each_file (envOf repeatListing) ⟨[]⟩ (bytesOf "migrations") rfl

/-! ## Names that start with the match -/

theorem FindStringSubmatch_of_matchAt (f : Str) (m : List Str) (h : matchAt f = some m) :
    FindStringSubmatch f = m := by
  cases f with
  | nil => simp [matchAt] at h
  | cons c rest => simp [FindStringSubmatch, doExecute, h]

theorem strLe_two_digits (a1 a2 b1 b2 : Nat) (ra rb : Str)
    (ha1 : isDigit a1 = true) (ha2 : isDigit a2 = true)
    (h : strLe (a1 :: a2 :: ra) (b1 :: b2 :: rb)) :
    10 * (a1 - 48) + (a2 - 48) ≤ 10 * (b1 - 48) + (b2 - 48) := by
  simp only [isDigit, Bool.and_eq_true, decide_eq_true_eq] at ha1 ha2
  simp only [strLe, strLess] at h
  by_cases h1 : b1 < a1
  · simp [h1] at h
  · by_cases h2 : a1 < b1
    · omega
    · have e : a1 = b1 := by omega
      subst e
      simp only [h1, if_false] at h
      by_cases h3 : b2 < a2
      · simp [h3] at h
      · omega

/-- When every discovered name starts with its match (two digits at the first byte), loading
the names in ascending name order gives ascending IDs. -/
theorem loadAll_ids_ascending_of_anchored (env : Env) (dir : Str) (files : List Str)
    (ms : List migration) (hs : List.Pairwise strLe files)
    (ha : ∀ f ∈ files, (matchAt f).isSome = true)
    (h : (loadAll env dir files).1 = .ok ms) :
    List.Pairwise (fun a b : Int => a ≤ b) (ms.map migration.ID) := by
  have hall := loadAll_ok_inv env dir files ms h
  have hid : ms.map migration.ID
      = files.map fun f => ((10 * (f.getD 0 0 - 48) + (f.getD 1 0 - 48) : Nat) : Int) := by
    clear hs h
    induction hall with
    | nil => rfl
    | @cons f m fs ms1 hm _ ih =>
      have hf := ha f (List.mem_cons_self _ _)
      obtain ⟨mm, hmm⟩ := Option.isSome_iff_exists.1 hf
      obtain ⟨d1, d2, c, t, e, post, rfl, rfl, _⟩ := matchAt_spec f mm hmm
      obtain ⟨_, x1, x2, _, _, hfs, _, _, _, rfl⟩ := initMigration_ok_inv env dir _ m hm
      rw [FindStringSubmatch_of_matchAt _ _ hmm] at hfs
      simp only [List.cons.injEq, and_true] at hfs
      obtain ⟨_, ⟨rfl, rfl⟩, _⟩ := hfs
      simp only [List.map_cons, List.getD_cons_zero, List.getD_cons_succ]
      rw [ih fun g hg => ha g (List.mem_cons_of_mem _ hg)]
  rw [hid, List.pairwise_map]
  refine List.Pairwise.imp_of_mem ?_ hs
  intro a b hma hmb hab
  obtain ⟨ma, hma2⟩ := Option.isSome_iff_exists.1 (ha a hma)
  obtain ⟨mb, hmb2⟩ := Option.isSome_iff_exists.1 (ha b hmb)
  obtain ⟨a1, a2, _, _, _, _, rfl, _, ha1, ha2, _⟩ := matchAt_spec a ma hma2
  obtain ⟨b1, b2, _, _, _, _, rfl, _⟩ := matchAt_spec b mb hmb2
  simp only [List.getD_cons_zero, List.getD_cons_succ]
  exact_mod_cast strLe_two_digits _ _ _ _ _ _ ha1 ha2 hab

/-! ## The language of the pattern -/

theorem dotSql_complete (c : Nat) (r post : Str) (hc : c ≠ 10)
    (hw : runeLen (c :: r ++ sqlBytes ++ post) = r.length + 1) :
    dotSql (c :: r ++ sqlBytes ++ post) = some (c :: r ++ sqlBytes) := by
  have hdrop : (c :: r ++ sqlBytes ++ post).drop (r.length + 1) = sqlBytes ++ post := by
    simp
  have htake : (c :: r ++ sqlBytes ++ post).take (r.length + 1 + 3) = c :: r ++ sqlBytes := by
    have : r.length + 1 + 3 = (c :: r ++ sqlBytes).length := by simp [sqlBytes]
    rw [this, List.take_left']
    rfl
  have hd : dotSql (c :: r ++ sqlBytes ++ post)
      = if c = 10 then none
        else if ((c :: r ++ sqlBytes ++ post).drop (runeLen (c :: r ++ sqlBytes ++ post))).take 3
            = sqlBytes
          then some ((c :: r ++ sqlBytes ++ post).take (runeLen (c :: r ++ sqlBytes ++ post) + 3))
          else none := rfl
  rw [hd, if_neg hc, hw, hdrop, htake, if_pos (by simp [sqlBytes])]

theorem titleRest_complete (t rest : Str) (e : Str) (ht : ∀ x ∈ t, isTitleByte x = true)
    (hd : dotSql rest = some e) : (titleRest (t ++ rest)).isSome = true := by
  induction t with
  | nil =>
    cases rest with
    | nil => simp [dotSql] at hd
    | cons c r =>
      simp only [List.nil_append, titleRest]
      split_ifs
      · cases titleRest r <;> simp [hd]
      · simp [hd]
  | cons c t ih =>
    have hc : isTitleByte c = true := ht c (List.mem_cons_self _ _)
    have hr := ih fun x hx => ht x (List.mem_cons_of_mem _ hx)
    obtain ⟨te, hte⟩ := Option.isSome_iff_exists.1 hr
    simp [titleRest, hc, hte]

theorem doExecute_complete (pre rest : Str) (h : (matchAt rest).isSome = true) :
    (doExecute (pre ++ rest)).isSome = true := by
  induction pre with
  | nil =>
    cases rest with
    | nil => simp [matchAt] at h
    | cons c r =>
      obtain ⟨m, hm⟩ := Option.isSome_iff_exists.1 h
      simp [doExecute, hm]
  | cons c p ih =>
    simp only [List.cons_append, doExecute]
    cases matchAt (c :: (p ++ rest)) with
    | some m => rfl
    | none => exact ih

/-- The names `MatchString` accepts are those that contain, anywhere, two ASCII digits, `__`, one
or more bytes of `[a-zA-Z0-9_-]`, one rune other than newline (bytes `c :: r`), and `sql`. -/
theorem MatchString_iff (s : Str) :
    MatchString s = true ↔
      ∃ pre d1 d2 t c r post,
        s = pre ++ d1 :: d2 :: 95 :: 95 :: (t ++ (c :: r ++ sqlBytes ++ post))
        ∧ isDigit d1 = true ∧ isDigit d2 = true
        ∧ t ≠ [] ∧ (∀ x ∈ t, isTitleByte x = true)
        ∧ c ≠ 10 ∧ runeLen (c :: r ++ sqlBytes ++ post) = r.length + 1 := by
  constructor
  · intro h
    obtain ⟨m, hm⟩ := Option.isSome_iff_exists.1 h
    obtain ⟨pre, rest, rfl, hmatch, _⟩ := doExecute_spec s m hm
    obtain ⟨d1, d2, c0, t, e, post, rfl, _, h1, h2, hc0, ht, hdot⟩ := matchAt_spec rest m hmatch
    obtain ⟨c, r, post2, hs, he, hc, hw⟩ := dotSql_spec _ _ hdot
    have hpost : post2 = post := List.append_cancel_left hs.symm
    subst hpost
    subst he
    refine ⟨pre, d1, d2, c0 :: t, c, r, _, by simp, h1, h2, by simp, ?_, hc, hw.symm⟩
    intro x hx
    rcases List.mem_cons.1 hx with rfl | hx
    · exact hc0
    · exact ht x hx
  · rintro ⟨pre, d1, d2, t, c, r, post, rfl, h1, h2, hne, ht, hc, hw⟩
    refine doExecute_complete pre _ ?_
    cases t with
    | nil => exact absurd rfl hne
    | cons c0 t =>
      have hc0 : isTitleByte c0 = true := ht c0 (List.mem_cons_self _ _)
      have htr := titleRest_complete t _ _ (fun x hx => ht x (List.mem_cons_of_mem _ hx))
        (dotSql_complete c r post hc hw)
      simp only [List.cons_append, matchAt, h1, h2, hc0, beq_self_eq_true, Bool.and_self,
        if_true, Option.isSome_map']
      exact htr

/-! ## The run stops at the first failure -/

theorem loadAll_all_ok (env : Env) (dir : Str) (files : List Str)
    (h : ∀ g ∈ files, ∃ m, (initMigration env dir g).1 = .ok m) :
    ∃ ms, loadAll env dir files
      = (.ok ms, files.flatMap fun g => (initMigration env dir g).2) := by
  induction files with
  | nil => exact ⟨[], rfl⟩
  | cons file rest ih =>
    obtain ⟨m, hm⟩ := h file (List.mem_cons_self _ _)
    obtain ⟨ms, hms⟩ := ih fun g hg => h g (List.mem_cons_of_mem _ hg)
    rcases hi : initMigration env dir file with ⟨r, tr⟩
    rw [hi] at hm
    simp only at hm
    subst hm
    refine ⟨m :: ms, ?_⟩
    simp only [loadAll, hi, hms, List.flatMap_cons]

theorem loadAll_first_error (env : Env) (dir : Str) (pre : List Str) (file : Str)
    (post : List Str) (e : GoError)
    (hpre : ∀ g ∈ pre, ∃ m, (initMigration env dir g).1 = .ok m)
    (hfile : (initMigration env dir file).1 = .error e) :
    loadAll env dir (pre ++ file :: post)
      = (.error e, (pre.flatMap fun g => (initMigration env dir g).2)
          ++ (initMigration env dir file).2) := by
  induction pre with
  | nil =>
    rcases hi : initMigration env dir file with ⟨r, tr⟩
    rw [hi] at hfile
    simp only at hfile
    subst hfile
    simp [loadAll, hi]
  | cons g rest ih =>
    obtain ⟨m, hm⟩ := hpre g (List.mem_cons_self _ _)
    have hrest := ih fun x hx => hpre x (List.mem_cons_of_mem _ hx)
    rcases hi : initMigration env dir g with ⟨r, tr⟩
    rw [hi] at hm
    simp only at hm
    subst hm
    rw [List.cons_append, loadAll, hi]
    simp only [hrest, List.flatMap_cons, List.append_assoc, hi]

theorem loadAll_ok_all (env : Env) (dir : Str) (files : List Str) (ms : List migration)
    (h : (loadAll env dir files).1 = .ok ms) :
    ∀ g ∈ files, ∃ m, (initMigration env dir g).1 = .ok m := by
  have hall := loadAll_ok_inv env dir files ms h
  intro g hg
  obtain ⟨i, hi, rfl⟩ := List.getElem_of_mem hg
  have hlen := hall.length_eq
  exact ⟨ms[i], List.Forall₂.get hall hi (by omega)⟩

theorem start_of_getMigrationFiles_ok (env : Env) (db : DB) (dir : Str) (files : List Str)
    (h : (getMigrationFiles env dir).1 = .ok files) :
    start env db dir =
      ((match (loadAll env dir files).1 with
        | .error e => some e
        | .ok _ => none), db, (getMigrationFiles env dir).2 ++ (loadAll env dir files).2) := by
  rcases hg : getMigrationFiles env dir with ⟨r, tr⟩
  rw [hg] at h
  simp only at h
  subst h
  rcases hl : loadAll env dir files with ⟨r2, tr2⟩
  cases r2 <;> simp [start, startMigrations, hg, hl]

/-- C11: `start` aborts at the first failure and returns that error unchanged.  If the directory
cannot be listed, `start` returns the listing error and its only action is the directory read.
Otherwise the discovered files are loaded one at a time in the returned (sorted) order: if the
files before `file` load and `file` fails with `e`, `start` returns `e` and its actions are those
of the listing, of the loads before `file` and of the failed load, nothing of a later file; if
every file loads, the actions are those of all loads in order.  And `start` returns `nil` exactly
when the listing and every load succeed. -/
theorem start_aborts_at_first_failure (env : Env) (db : DB) (dir : Str) :
    (∀ errno, env.ReadDir dir = .error errno →
        start env db dir = (some (.os errno), db, [.readDir dir]))
      ∧ (∀ files, (getMigrationFiles env dir).1 = .ok files →
          (∀ pre file post e, files = pre ++ file :: post →
            (∀ g ∈ pre, ∃ m, (initMigration env dir g).1 = .ok m) →
            (initMigration env dir file).1 = .error e →
            start env db dir = (some e, db,
              (getMigrationFiles env dir).2
                ++ ((pre.flatMap fun g => (initMigration env dir g).2)
                  ++ (initMigration env dir file).2)))
          ∧ ((∀ g ∈ files, ∃ m, (initMigration env dir g).1 = .ok m) →
            start env db dir = (none, db,
              (getMigrationFiles env dir).2
                ++ files.flatMap fun g => (initMigration env dir g).2)))
      ∧ ((start env db dir).1 = none ↔
          ∃ files, (getMigrationFiles env dir).1 = .ok files
            ∧ ∀ g ∈ files, ∃ m, (initMigration env dir g).1 = .ok m) := by
  refine ⟨?_, ?_, ?_⟩
  · intro errno h
    simp [start, startMigrations, getMigrationFiles, h]
  · intro files hfiles
    have hs := start_of_getMigrationFiles_ok env db dir files hfiles
    constructor
    · intro pre file post e hsplit hpre hfile
      rw [hs, hsplit, loadAll_first_error env dir pre file post e hpre hfile]
    · intro hall
      obtain ⟨ms, hms⟩ := loadAll_all_ok env dir files hall
      rw [hs, hms]
  · constructor
    · intro h
      obtain ⟨files, ms, hg, _, hl⟩ := start_ok_inv env db dir h
      exact ⟨files, hg, loadAll_ok_all env dir files ms hl⟩
    · rintro ⟨files, hg, hall⟩
      obtain ⟨ms, hms⟩ := loadAll_all_ok env dir files hall
      rw [start_of_getMigrationFiles_ok env db dir files hg, hms]

theorem start_aborts_at_first_failure_witness :
    start unreadableEnv ⟨[]⟩ (bytesOf "migrations")
        = (some (.os 2), ⟨[]⟩, [.readDir (bytesOf "migrations")])
      ∧ start failingEnv ⟨[]⟩ (bytesOf "migrations")
        = (some (.os 13), ⟨[]⟩,
            [.readDir (bytesOf "migrations"), .logPrintf 3 0,
             .openFile (bytesOf "migrations") (bytesOf "01__a.sql"),
             .readAll (bytesOf "migrations") (bytesOf "01__a.sql"),
             .closeFile (bytesOf "migrations") (bytesOf "01__a.sql"),
             .openFile (bytesOf "migrations") (bytesOf "02__b.sql")])
      ∧ (start (envOf threeListing) ⟨[]⟩ (bytesOf "migrations")).1 = none :=
  ⟨(start_aborts_at_first_failure unreadableEnv ⟨[]⟩ (bytesOf "migrations")).1 2 rfl,
    ((start_aborts_at_first_failure failingEnv ⟨[]⟩ (bytesOf "migrations")).2.1
        [bytesOf "01__a.sql", bytesOf "02__b.sql", bytesOf "03__c.sql"] rfl).1
      [bytesOf "01__a.sql"] (bytesOf "02__b.sql") [bytesOf "03__c.sql"] (.os 13) rfl
      (by
        intro g hg
        rw [List.mem_singleton] at hg
        subst hg
        exact ⟨_, rfl⟩)
      rfl,
    (start_aborts_at_first_failure (envOf threeListing) ⟨[]⟩ (bytesOf "migrations")).2.2.2
      ⟨[bytesOf "01__a.sql", bytesOf "02__b.sql", bytesOf "03__c.sql"], rfl, by
        intro g hg
        simp only [List.mem_cons, List.mem_singleton, List.not_mem_nil, or_false] at hg
        rcases hg with rfl | rfl | rfl <;> exact ⟨_, rfl⟩⟩⟩

/-! ## `main` without its flags -/

/-- C12: when the value of `--conn` or of `--dir` is empty, `main` prints the usage and exits
with status 1, and these are its only actions: no database connection is opened and no directory
or file is read. -/
theorem main_missing_flag (env : Env) (sqlOpen : Str → Except Nat DB) (conn dir : Str)
    (h : conn = [] ∨ dir = []) :
    main env sqlOpen conn dir = (1, [.printDefaults, .exit 1])
      ∧ (∀ c, Effect.sqlOpen c ∉ (main env sqlOpen conn dir).2)
      ∧ (∀ d, Effect.readDir d ∉ (main env sqlOpen conn dir).2)
      ∧ (∀ d f, Effect.openFile d f ∉ (main env sqlOpen conn dir).2
          ∧ Effect.readAll d f ∉ (main env sqlOpen conn dir).2) := by
  have hm : main env sqlOpen conn dir = (1, [.printDefaults, .exit 1]) := by
    unfold main
    rw [if_pos h]
  rw [hm]
  simp

theorem main_missing_flag_witness :
    main (envOf sampleListing) sampleSqlOpen [] (bytesOf "migrations")
        = (1, [.printDefaults, .exit 1])
      ∧ (∀ c, Effect.sqlOpen c
          ∉ (main (envOf sampleListing) sampleSqlOpen [] (bytesOf "migrations")).2)
      ∧ (∀ d, Effect.readDir d
          ∉ (main (envOf sampleListing) sampleSqlOpen [] (bytesOf "migrations")).2)
      ∧ (∀ d f, Effect.openFile d f
            ∉ (main (envOf sampleListing) sampleSqlOpen [] (bytesOf "migrations")).2
          ∧ Effect.readAll d f
            ∉ (main (envOf sampleListing) sampleSqlOpen [] (bytesOf "migrations")).2) :=
  main_missing_flag (envOf sampleListing) sampleSqlOpen [] (bytesOf "migrations") (Or.inl rfl)

/-! ## The dot of the pattern -/

/-- C13: the dot before `sql` in the pattern is not escaped, so it matches any character: the
name `01__aXsql` is accepted with title `a`, `getMigrationFiles` returns it, and it does not
contain `.sql`. -/
theorem getMigrationFiles_returns_name_without_dot :
    MatchString (bytesOf "01__aXsql") = true
      ∧ FindStringSubmatch (bytesOf "01__aXsql")
        = [bytesOf "01__aXsql", bytesOf "01", bytesOf "a"]
      ∧ (getMigrationFiles (envOf dotListing) (bytesOf "migrations")).1
        = .ok [bytesOf "01__aXsql"]
      ∧ ¬ List.IsInfix (bytesOf ".sql") (bytesOf "01__aXsql") :=
  ⟨rfl, rfl, rfl, by decide⟩

/-! ## The parsed prefix and title -/

theorem FindStringSubmatch_length (s : Str) :
    (FindStringSubmatch s).length = 3 ↔ MatchString s = true := by
  cases h : MatchString s with
  | true =>
    obtain ⟨_, _, _, _, hf, _⟩ := FindStringSubmatch_of_match s h
    simp [hf]
  | false => simp [FindStringSubmatch_of_no_match s h]

/-- C14: the integer-parse error branch of `initMigration` is unreachable.  Whenever the pattern
matches (the parts are three), the first group is exactly two ASCII digits and `Atoi` succeeds on
it, so `initMigration` never returns the error of `Atoi`; and every record it returns has
`0 <= ID <= 99`. -/
theorem initMigration_atoi_unreachable (env : Env) (dir file : Str) :
    ((FindStringSubmatch file).length = 3 →
        ∃ d1 d2, (FindStringSubmatch file).getD 1 [] = [d1, d2]
          ∧ isDigit d1 = true ∧ isDigit d2 = true
          ∧ Atoi ((FindStringSubmatch file).getD 1 [])
            = .ok ((10 * (d1 - 48) + (d2 - 48) : Nat) : Int))
      ∧ (∀ num, (initMigration env dir file).1 ≠ .error (.numError num))
      ∧ (∀ m, (initMigration env dir file).1 = .ok m → 0 ≤ m.ID ∧ m.ID ≤ 99) := by
  refine ⟨?_, ?_, ?_⟩
  · intro hlen
    obtain ⟨_, d1, d2, _, hf, h1, h2⟩ :=
      FindStringSubmatch_of_match file ((FindStringSubmatch_length file).1 hlen)
    refine ⟨d1, d2, by simp [hf], h1, h2, ?_⟩
    rw [hf]
    exact Atoi_two_digits d1 d2 h1 h2
  · intro num hnum
    cases hm : MatchString file with
    | false =>
      rw [initMigration_of_no_match env dir file hm] at hnum
      simp at hnum
    | true =>
      obtain ⟨_, _, _, _, _, _, _, hi⟩ := initMigration_of_match env dir file hm
      rw [hi] at hnum
      cases ho : env.Open dir file with
      | error x => rw [ho] at hnum; simp at hnum
      | ok f =>
        cases f with
        | error x => rw [ho] at hnum; simp at hnum
        | ok b => rw [ho] at hnum; simp at hnum
  · intro m hm
    obtain ⟨_, d1, d2, _, _, _, h1, h2, _, rfl⟩ := initMigration_ok_inv env dir file m hm
    simp only [isDigit, Bool.and_eq_true, decide_eq_true_eq] at h1 h2
    have hle : 10 * (d1 - 48) + (d2 - 48) ≤ 99 := by omega
    constructor
    · exact Int.natCast_nonneg _
    · show ((10 * (d1 - 48) + (d2 - 48) : Nat) : Int) ≤ 99
      exact_mod_cast hle

theorem FindStringSubmatch_title (file whole g1 title : Str)
    (h : FindStringSubmatch file = [whole, g1, title]) :
    title ≠ [] ∧ (∀ x ∈ title, isTitleByte x = true)
      ∧ ∃ pre post, file = pre ++ title ++ post := by
  cases hd : doExecute file with
  | none => simp [FindStringSubmatch, hd] at h
  | some m =>
    simp only [FindStringSubmatch, hd] at h
    subst h
    obtain ⟨pre, rest, rfl, hmatch, _⟩ := doExecute_spec file _ hd
    obtain ⟨d1, d2, c, t, e, post, rfl, hm, _, _, hc, ht, _⟩ := matchAt_spec rest _ hmatch
    simp only [List.cons.injEq, and_true] at hm
    obtain ⟨_, _, rfl⟩ := hm
    refine ⟨by simp, ?_, pre ++ [d1, d2, 95, 95], e ++ post, by simp⟩
    intro x hx
    rcases List.mem_cons.1 hx with rfl | hx
    · exact hc
    · exact ht x hx

/-- C15: after a successful `initMigration(dir, file)` the Title is non-empty, made only of bytes
of `[A-Za-z0-9_-]`, and a contiguous part of `file`; and the content of the record is exactly the
bytes of the file. -/
theorem initMigration_title_content (env : Env) (dir file : Str) (m : migration)
    (h : (initMigration env dir file).1 = .ok m) :
    m.Title ≠ [] ∧ (∀ x ∈ m.Title, isTitleByte x = true)
      ∧ (∃ pre post, file = pre ++ m.Title ++ post)
      ∧ env.Open dir file = .ok (.ok m.content) := by
  obtain ⟨whole, d1, d2, title, b, hf, _, _, ho, rfl⟩ := initMigration_ok_inv env dir file m h
  obtain ⟨hne, ht, hsub⟩ := FindStringSubmatch_title file whole [d1, d2] title hf
  exact ⟨hne, ht, hsub, ho⟩

theorem initMigration_title_content_witness :
    (initMigration (envOf sampleListing) (bytesOf "migrations") (bytesOf "x01__A-b_9.sql.bak")).1
        = .ok ⟨1, bytesOf "A-b_9", hexEncode (md5Sum sampleContent), sampleContent⟩
      ∧ bytesOf "A-b_9" ≠ [] ∧ (∀ x ∈ bytesOf "A-b_9", isTitleByte x = true)
      ∧ (∃ pre post, bytesOf "x01__A-b_9.sql.bak" = pre ++ bytesOf "A-b_9" ++ post)
      ∧ (envOf sampleListing).Open (bytesOf "migrations") (bytesOf "x01__A-b_9.sql.bak")
        = .ok (.ok sampleContent) :=
  ⟨rfl, initMigration_title_content (envOf sampleListing) (bytesOf "migrations")
    (bytesOf "x01__A-b_9.sql.bak")
    ⟨1, bytesOf "A-b_9", hexEncode (md5Sum sampleContent), sampleContent⟩ rfl⟩

/-! ## The database is left alone -/

theorem getMigrationFiles_no_dbExec (env : Env) (dir stmt : Str) :
    Effect.dbExec stmt ∉ (getMigrationFiles env dir).2 := by
  unfold getMigrationFiles
  cases env.ReadDir dir <;> simp

theorem initMigration_no_dbExec (env : Env) (dir file stmt : Str) :
    Effect.dbExec stmt ∉ (initMigration env dir file).2 := by
  cases hm : MatchString file with
  | false => simp [initMigration_of_no_match env dir file hm]
  | true =>
    obtain ⟨_, _, _, _, _, _, _, hi⟩ := initMigration_of_match env dir file hm
    rw [hi]
    cases env.Open dir file with
    | error x => simp
    | ok f => cases f <;> simp

theorem loadAll_no_dbExec (env : Env) (dir : Str) (files : List Str) (stmt : Str) :
    Effect.dbExec stmt ∉ (loadAll env dir files).2 := by
  induction files with
  | nil => simp [loadAll]
  | cons file rest ih =>
    have h1 := initMigration_no_dbExec env dir file stmt
    rcases hi : initMigration env dir file with ⟨r, tr⟩
    rw [hi] at h1
    rcases hl : loadAll env dir rest with ⟨r2, tr2⟩
    rw [hl] at ih
    cases r with
    | error e => simpa [loadAll, hi] using h1
    | ok m =>
      cases r2 with
      | error e => simpa [loadAll, hi, hl] using ⟨h1, ih⟩
      | ok ms => simpa [loadAll, hi, hl] using ⟨h1, ih⟩

theorem start_leaves_db_trace (env : Env) (db : DB) (dir stmt : Str) :
    Effect.dbExec stmt ∉ (start env db dir).2.2 := by
  have hg := getMigrationFiles_no_dbExec env dir stmt
  rcases hgm : getMigrationFiles env dir with ⟨r, tr⟩
  rw [hgm] at hg
  cases r with
  | error e => simpa [start, startMigrations, hgm] using hg
  | ok files =>
    have hl := loadAll_no_dbExec env dir files stmt
    rcases hlo : loadAll env dir files with ⟨r2, tr2⟩
    rw [hlo] at hl
    cases r2 <;> simpa [start, startMigrations, hgm, hlo] using ⟨hg, hl⟩

/-- C16: `start` never touches the database.  Whatever the database state, the directory and the
outcome, the state after `start` is the state before it, and no statement is sent to the
database: neither `createTable` nor any other one. -/
theorem start_leaves_database (env : Env) (db : DB) (dir : Str) :
    (start env db dir).2.1 = db
      ∧ Effect.dbExec createTable ∉ (start env db dir).2.2
      ∧ ∀ stmt, Effect.dbExec stmt ∉ (start env db dir).2.2 := by
  refine ⟨?_, start_leaves_db_trace env db dir createTable,
    fun stmt => start_leaves_db_trace env db dir stmt⟩
  unfold start
  rcases startMigrations env dir with ⟨r, tr⟩
  cases r <;> rfl

/-- The whole of `main` sends no statement to the database either. -/
theorem main_no_dbExec (env : Env) (sqlOpen : Str → Except Nat DB) (conn dir stmt : Str) :
    Effect.dbExec stmt ∉ (main env sqlOpen conn dir).2 := by
  unfold main
  split_ifs with h
  · simp
  · cases sqlOpen conn with
    | error e => simp
    | ok db =>
      have hs := (start_leaves_db_trace env db dir stmt)
      rcases hst : start env db dir with ⟨r, db2, tr⟩
      rw [hst] at hs
      simp only at hs
      cases r <;> simpa [hst] using hs

end Migratedb
